import Mathlib

/-!
# GPUMemBench: a shallow embedding of `src/main.cpp`

The program measures OpenCL transfer bandwidth.  Its arithmetic is done on C++
`double`s, so the embedding starts with a small executable model of IEEE-754
binary64 (round to nearest, ties to even), built on `Nat` and `Int` only.

Conventions of the model
* a finite double is `Dbl.fin m e`, the number `m * 2^e`, kept in normal form:
  `m` is odd, or the value is zero and is written `Dbl.fin 0 0`;
* the sign of zero and the sign and payload of NaN are not modelled: no output
  of the program depends on them for the inputs studied here;
* `size_t` and `cl_ulong` are `Nat` reduced modulo `2^64`, `int` is `Int`
  kept inside `[-2^31, 2^31)`.
-/

set_option maxRecDepth 100000

namespace GPUMemBench

/-! ## Binary64 arithmetic -/

/-- A value of the C++ type `double`. -/
inductive Dbl where
  | fin (m : Int) (e : Int)
  | inf (neg : Bool)
  | nan
deriving DecidableEq, Repr

/-- Number of binary digits of `a`, by halving; `fuel` bounds the number of steps. -/
def bitLenAux : Nat → Nat → Nat
  | 0, _ => 0
  | fuel + 1, a => if a = 0 then 0 else bitLenAux fuel (a / 2) + 1

/-- Number of binary digits of `a` (`0` for `0`). -/
def bitLen (a : Nat) : Nat := bitLenAux a a

/-- Remove the factors of two of `a`, adding them to the exponent `e`. -/
def stripTwos : Nat → Nat → Int → Nat × Int
  | 0, a, e => (a, e)
  | fuel + 1, a, e =>
    if a ≠ 0 ∧ a % 2 = 0 then stripTwos fuel (a / 2) (e + 1) else (a, e)

/-- Attach a sign to a magnitude. -/
def withSign (neg : Bool) (a : Nat) : Int := if neg then -(a : Int) else (a : Int)

/-- The finite double `±a * 2^e` in normal form, or an infinity when the value
is `2^1024` or more.  The caller guarantees that `a * 2^e` needs no rounding. -/
def pack (neg : Bool) (a : Nat) (e : Int) : Dbl :=
  if a = 0 then Dbl.fin 0 0
  else
    let p := stripTwos a a e
    if (bitLen p.1 : Int) + p.2 > 1024 then Dbl.inf neg else Dbl.fin (withSign neg p.1) p.2

/-- Round `q + r / 2^s` to an integer, nearest with ties to even (`r < 2^s`, `0 < s`). -/
def roundHalfEven (q r s : Nat) : Nat :=
  if r > 2 ^ (s - 1) ∨ (r = 2 ^ (s - 1) ∧ q % 2 = 1) then q + 1 else q

/-- Round the exact value `±a * 2^e` to binary64: 53 significant bits, least
exponent `-1074`, overflow to infinity. -/
def roundDyadic (neg : Bool) (a : Nat) (e : Int) : Dbl :=
  if a = 0 then Dbl.fin 0 0
  else
    let p := stripTwos a a e
    let shift : Int := max ((bitLen p.1 : Int) - 53) (-1074 - p.2)
    if shift ≤ 0 then pack neg p.1 p.2
    else
      let s := shift.toNat
      pack neg (roundHalfEven (p.1 / 2 ^ s) (p.1 % 2 ^ s) s) (p.2 + shift)

/-- Round the exact value `±(n / d) * 2^e` to binary64 (`d ≠ 0`).  The quotient is
taken with at least 64 bits and a sticky bit for the remainder, which decides
the rounding as the exact quotient would. -/
def roundRatio (neg : Bool) (n d : Nat) (e : Int) : Dbl :=
  let k := bitLen d + 64
  let q := n * 2 ^ k / d
  let sticky := if n * 2 ^ k % d = 0 then 0 else 1
  roundDyadic neg (2 * q + sticky) (e - (k : Int) - 1)

/-- Conversion of an unsigned integer (`size_t`, `cl_ulong`) to `double`. -/
def ofNat (n : Nat) : Dbl := roundDyadic false n 0

/-- Conversion of an `int` to `double`. -/
def ofInt (i : Int) : Dbl := roundDyadic (decide (i < 0)) i.natAbs 0

/-- Unary minus. -/
def fneg : Dbl → Dbl
  | Dbl.fin m e => Dbl.fin (-m) e
  | Dbl.inf neg => Dbl.inf (!neg)
  | Dbl.nan => Dbl.nan

/-- Addition of doubles. -/
def fadd : Dbl → Dbl → Dbl
  | Dbl.fin m1 e1, Dbl.fin m2 e2 =>
    let lo := min e1 e2
    let s : Int := m1 * 2 ^ (e1 - lo).toNat + m2 * 2 ^ (e2 - lo).toNat
    roundDyadic (decide (s < 0)) s.natAbs lo
  | Dbl.fin _ _, Dbl.inf neg => Dbl.inf neg
  | Dbl.inf neg, Dbl.fin _ _ => Dbl.inf neg
  | Dbl.inf n1, Dbl.inf n2 => if n1 = n2 then Dbl.inf n1 else Dbl.nan
  | _, _ => Dbl.nan

/-- Subtraction of doubles. -/
def fsub (x y : Dbl) : Dbl := fadd x (fneg y)

/-- Multiplication of doubles. -/
def fmul : Dbl → Dbl → Dbl
  | Dbl.fin m1 e1, Dbl.fin m2 e2 =>
    roundDyadic (decide (m1 * m2 < 0)) (m1.natAbs * m2.natAbs) (e1 + e2)
  | Dbl.fin m _, Dbl.inf neg =>
    if m = 0 then Dbl.nan else Dbl.inf (xor (decide (m < 0)) neg)
  | Dbl.inf neg, Dbl.fin m _ =>
    if m = 0 then Dbl.nan else Dbl.inf (xor (decide (m < 0)) neg)
  | Dbl.inf n1, Dbl.inf n2 => Dbl.inf (xor n1 n2)
  | _, _ => Dbl.nan

/-- Division of doubles. -/
def fdiv : Dbl → Dbl → Dbl
  | Dbl.fin m1 e1, Dbl.fin m2 e2 =>
    if m2 = 0 then (if m1 = 0 then Dbl.nan else Dbl.inf (decide (m1 < 0)))
    else roundRatio (xor (decide (m1 < 0)) (decide (m2 < 0))) m1.natAbs m2.natAbs (e1 - e2)
  | Dbl.fin _ _, Dbl.inf _ => Dbl.fin 0 0
  | Dbl.inf neg, Dbl.fin m _ => Dbl.inf (xor neg (decide (m < 0)))
  | _, _ => Dbl.nan

/-- The comparison `x >= y` on doubles; false as soon as a NaN is involved. -/
def fge : Dbl → Dbl → Bool
  | Dbl.fin m1 e1, Dbl.fin m2 e2 =>
    let lo := min e1 e2
    decide (m2 * 2 ^ (e2 - lo).toNat ≤ m1 * 2 ^ (e1 - lo).toNat)
  | Dbl.fin _ _, Dbl.inf neg => neg
  | Dbl.inf neg, Dbl.fin _ _ => !neg
  | Dbl.inf n1, Dbl.inf n2 => !n1 || n2
  | _, _ => false

/-- Integer square root by bits: the greatest `r`, built from the bits below
`2^i`, with `(acc + r)^2 ≤ a`. -/
def isqrtAux (a : Nat) : Nat → Nat → Nat
  | 0, acc => acc
  | i + 1, acc =>
    if (acc + 2 ^ i) * (acc + 2 ^ i) ≤ a then isqrtAux a i (acc + 2 ^ i) else isqrtAux a i acc

/-- Integer square root. -/
def isqrt (a : Nat) : Nat := isqrtAux a (bitLen a) 0

/-- The function `std::sqrt` on doubles, correctly rounded. -/
def fsqrt : Dbl → Dbl
  | Dbl.fin m e =>
    if m = 0 then Dbl.fin 0 0
    else if m < 0 then Dbl.nan
    else
      let odd : Nat := (e % 2).toNat
      let a := m.natAbs * 2 ^ (128 + odd)
      let r := isqrt a
      let sticky := if r * r = a then 0 else 1
      roundDyadic false (2 * r + sticky) ((e - odd - 128) / 2 - 1)
  | Dbl.inf neg => if neg then Dbl.nan else Dbl.inf false
  | Dbl.nan => Dbl.nan

/-- The conversion `static_cast<size_t>(double)`: truncation toward zero.  The
C++ standard leaves the result undefined when the truncated value does not fit
the destination type; the model returns `none` there. -/
def toSizeT : Dbl → Option Nat
  | Dbl.fin m e =>
    let t : Int := if 0 ≤ e then m * 2 ^ e.toNat else Int.tdiv m (2 ^ (-e).toNat)
    if 0 ≤ t ∧ t < 2 ^ 64 then some t.toNat else none
  | _ => none

/-- Two decimal digits of a number below one hundred. -/
def twoDigits (n : Nat) : String :=
  if n < 10 then "0" ++ Nat.repr n else Nat.repr n

/-- The text written by `out << std::fixed << std::setprecision(2) << x`: the
exact binary value rounded to two decimals, ties to even. -/
def fixed2 : Dbl → String
  | Dbl.fin m e =>
    let a := m.natAbs * 100
    let r : Nat :=
      if 0 ≤ e then a * 2 ^ e.toNat
      else roundHalfEven (a / 2 ^ (-e).toNat) (a % 2 ^ (-e).toNat) (-e).toNat
    (if m < 0 then "-" else "") ++ Nat.repr (r / 100) ++ "." ++ twoDigits (r % 100)
  | Dbl.inf neg => if neg then "-inf" else "inf"
  | Dbl.nan => "nan"

/-- The double nearest to the decimal `digits * 10^exp10`. -/
def ofDecimal (neg : Bool) (digits : Nat) (exp10 : Int) : Dbl :=
  if 0 ≤ exp10 then roundDyadic neg (digits * 10 ^ exp10.toNat) 0
  else roundRatio neg digits (10 ^ (-exp10).toNat) 0

/-- The literal `1024` (also the `int` products `1024 * 1024` ... converted to `double`). -/
def pow1024 (k : Nat) : Dbl := Dbl.fin 1 (10 * (k : Int))

/-- The literal `0.0`. -/
def zero : Dbl := Dbl.fin 0 0

/-! ## Library functions used by the program -/

/-- The exceptions the program can meet. -/
inductive Exn where
  | runtime_error (what : String)
  | invalid_argument (what : String)
  | out_of_range (what : String)
deriving DecidableEq, Repr

/-- What a call may do: return a value, throw, or run into behaviour the C++
standard leaves undefined. -/
inductive Res (α : Type) where
  | ok (v : α)
  | throw (e : Exn)
  | undefined
deriving DecidableEq, Repr

/-- White space in the "C" locale. -/
def isSpaceC (c : Char) : Bool :=
  c = ' ' || c = '\t' || c = '\n' || c = '\r' || c.toNat = 11 || c.toNat = 12

/-- Read an optional sign; `true` stands for a minus. -/
def readSign : List Char → Bool × List Char
  | '-' :: cs => (true, cs)
  | '+' :: cs => (false, cs)
  | cs => (false, cs)

/-- Value of a run of decimal digits. -/
def digitsVal (cs : List Char) : Nat :=
  cs.foldl (fun acc c => 10 * acc + (c.toNat - '0'.toNat)) 0

/-- Value of one hexadecimal digit, when the character is one. -/
def hexDigit (c : Char) : Option Nat :=
  if c.isDigit then some (c.toNat - '0'.toNat)
  else if 'a' ≤ c ∧ c ≤ 'f' then some (c.toNat - 'a'.toNat + 10)
  else if 'A' ≤ c ∧ c ≤ 'F' then some (c.toNat - 'A'.toNat + 10)
  else none

/-- Value of a run of hexadecimal digits. -/
def hexVal (cs : List Char) : Nat :=
  cs.foldl (fun acc c => 16 * acc + (hexDigit c).getD 0) 0

/-- Whether `cs` starts with the lower-case word `w`, letter case ignored. -/
def startsWithCI : List Char → List Char → Bool
  | _, [] => true
  | [], _ :: _ => false
  | c :: cs, w :: ws => c.toLower = w && startsWithCI cs ws

/-- An optional exponent part: the marker, an optional sign, digits.  Without
digits there is no exponent part at all. -/
def readExponent (isMarker : Char → Bool) : List Char → Int
  | [] => 0
  | c :: cs =>
    if isMarker c then
      let sd := readSign cs
      let ds := sd.2.takeWhile Char.isDigit
      if ds = [] then 0 else if sd.1 then -(digitsVal ds : Int) else (digitsVal ds : Int)
    else 0

/-- The result of a conversion below the normal range that was not exact
(`ERANGE` by underflow), given whether the exact value is the double found. -/
def underflows (x : Dbl) (exact : Bool) : Bool :=
  match x with
  | Dbl.fin m e => !exact && (decide (m = 0) || decide ((bitLen m.natAbs : Int) + e < -1021))
  | _ => false

/-- The checks `std::stod` makes on what `strtod` returned. -/
def stodRange (x : Dbl) (exact : Bool) : Res Dbl :=
  match x with
  | Dbl.inf _ => Res.throw (Exn.out_of_range "stod")
  | _ => if underflows x exact then Res.throw (Exn.out_of_range "stod") else Res.ok x

/-- The function `std::stod` in the "C" locale: leading white space, an optional
sign, then `inf`, `nan`, a hexadecimal or a decimal floating literal; what
follows the literal is ignored.  The decimal value is rounded to the nearest
double. -/
def stod (s : String) : Res Dbl :=
  let sd := readSign (s.data.dropWhile isSpaceC)
  let neg := sd.1
  let cs := sd.2
  if startsWithCI cs ['i', 'n', 'f'] then Res.ok (Dbl.inf neg)
  else if startsWithCI cs ['n', 'a', 'n'] then Res.ok Dbl.nan
  else
    let hs := cs.drop 2
    let hip := hs.takeWhile (fun c => (hexDigit c).isSome)
    let hr := hs.dropWhile (fun c => (hexDigit c).isSome)
    let hfp := if hr.head? = some '.' then hr.tail.takeWhile (fun c => (hexDigit c).isSome) else []
    let hrest := if hr.head? = some '.' then hr.tail.dropWhile (fun c => (hexDigit c).isSome) else hr
    if startsWithCI cs ['0', 'x'] ∧ ¬ (hip = [] ∧ hfp = []) then
      let e := readExponent (fun c => c = 'p' || c = 'P') hrest - 4 * (hfp.length : Int)
      stodRange (roundDyadic neg (hexVal (hip ++ hfp)) e)
        (decide (roundDyadic neg (hexVal (hip ++ hfp)) e = pack neg (hexVal (hip ++ hfp)) e))
    else
      let ip := cs.takeWhile Char.isDigit
      let r := cs.dropWhile Char.isDigit
      let fp := if r.head? = some '.' then r.tail.takeWhile Char.isDigit else []
      let rest := if r.head? = some '.' then r.tail.dropWhile Char.isDigit else r
      if ip = [] ∧ fp = [] then Res.throw (Exn.invalid_argument "stod")
      else
        let e := readExponent (fun c => c = 'e' || c = 'E') rest - (fp.length : Int)
        let n := digitsVal (ip ++ fp)
        let x := ofDecimal neg n e
        let exact : Bool :=
          match x with
          | Dbl.fin m b =>
            decide (n * 10 ^ e.toNat * 2 ^ (-b).toNat = m.natAbs * 2 ^ b.toNat * 10 ^ (-e).toNat)
          | _ => false
        stodRange x exact

/-- The function `std::stoi` (base 10): leading white space, an optional sign,
digits; what follows is ignored.  No digit raises `invalid_argument`, a value
outside `int` raises `out_of_range`. -/
def stoi (s : String) : Res Int :=
  let sd := readSign (s.data.dropWhile isSpaceC)
  let ds := sd.2.takeWhile Char.isDigit
  if ds = [] then Res.throw (Exn.invalid_argument "stoi")
  else
    let v : Int := if sd.1 then -(digitsVal ds : Int) else (digitsVal ds : Int)
    if v < -(2 : Int) ^ 31 ∨ (2 : Int) ^ 31 ≤ v then Res.throw (Exn.out_of_range "stoi")
    else Res.ok v

/-- The conversions of the standard library the program calls. -/
structure StdLib where
  stoi : String → Res Int
  stod : String → Res Dbl

/-- The standard library as modelled above. -/
def stdlib : StdLib := ⟨stoi, stod⟩

/-! ## Formatting and size parsing (`main.cpp`, lines 31-74) -/

/-- The loop `while (v >= 1024 && i < 4) { v /= 1024; ++i; }`.  It runs at most
`4 - i` times; `fuel` is that bound, and when it is used up `i` is `4`. -/
def scaleLoop : Nat → Dbl → Nat → Dbl × Nat
  | 0, v, i => (v, i)
  | fuel + 1, v, i =>
    if fge v (pow1024 1) && decide (i < 4) then scaleLoop fuel (fdiv v (pow1024 1)) (i + 1)
    else (v, i)

/-- Units of `formatBytes`. -/
def rateUnits : List String := ["B/s", "KB/s", "MB/s", "GB/s", "TB/s"]

/-- Units of `formatSize`. -/
def sizeUnits : List String := ["B", "KB", "MB", "GB", "TB"]

/-- Source: `std::string formatBytes(double bytes)`. -/
def formatBytes (bytes : Dbl) : String :=
  let r := scaleLoop 4 bytes 0
  fixed2 r.1 ++ " " ++ rateUnits.getD r.2 ""

/-- Source: `std::string formatSize(size_t bytes)`. -/
def formatSize (bytes : Nat) : String :=
  let r := scaleLoop 4 (ofNat bytes) 0
  fixed2 r.1 ++ " " ++ sizeUnits.getD r.2 ""

/-- The `switch (suffix)` of `parseSizeArgument`; `none` is the `default` case. -/
def suffixMultiplier (suffix : Char) : Option Dbl :=
  if suffix = 'K' then some (pow1024 1)
  else if suffix = 'M' then some (pow1024 2)
  else if suffix = 'G' then some (pow1024 3)
  else if suffix = 'T' then some (pow1024 4)
  else none

/-- The last two statements of `parseSizeArgument`: `std::stod`, the product and
the cast to `size_t`. -/
def convertSize (lib : StdLib) (numberPart : String) (multiplier : Dbl) : Res Nat :=
  match lib.stod numberPart with
  | Res.throw e => Res.throw e
  | Res.undefined => Res.undefined
  | Res.ok value =>
    match toSizeT (fmul value multiplier) with
    | some n => Res.ok n
    | none => Res.undefined

/-- Source: `size_t parseSizeArgument(const std::string& input)`.  `input.back()`
on the empty string is undefined. -/
def parseSizeArgument (lib : StdLib) (input : String) : Res Nat :=
  match input.data.getLast? with
  | none => Res.undefined
  | some c =>
    let suffix := c.toUpper
    if suffix.isAlpha then
      match suffixMultiplier suffix with
      | some multiplier => convertSize lib (String.mk input.data.dropLast) multiplier
      | none => Res.throw (Exn.runtime_error "Invalid size suffix (K/M/G/T)")
    else convertSize lib input (pow1024 0)

/-! ## The measurement routines (`main.cpp`, lines 101-171) -/

/-- The arithmetic in which the statistics of a pass are written: the program
uses `double`; the same text read over the rationals is the exact computation. -/
structure Arith (F : Type) where
  zero : F
  add : F → F → F
  sub : F → F → F
  mul : F → F → F
  div : F → F → F
  sqrt : F → F
  ofInt : Int → F
  ofSizeT : Nat → F
  thousand : F

/-- Binary64 arithmetic, the one the program runs on. -/
def dblArith : Arith Dbl :=
  ⟨zero, fadd, fsub, fmul, fdiv, fsqrt, ofInt, ofNat, ofDecimal false 1000 0⟩

/-- Exact rational arithmetic; the square root is left to the caller. -/
def ratArith (sqrt : ℚ → ℚ) : Arith ℚ :=
  ⟨0, fun x y => x + y, fun x y => x - y, fun x y => x * y, fun x y => x / y, sqrt,
    fun i => (i : ℚ), fun n => (n : ℚ), 1000⟩

/-- The four numbers a pass reports. -/
structure Stats (F : Type) where
  total : F
  avg : F
  stddev : F
  bandwidth : F

/-- The product `iterations * size` of the source: the `int` is converted to
`size_t` and the product is taken modulo `2^64`. -/
def bytesMoved (size : Nat) (iterations : Int) : Nat :=
  ((iterations % 2 ^ 64).toNat * (size % 2 ^ 64)) % 2 ^ 64

/-- The statistics block shared by the three routines (lines 115-120, 139-144, 163-168). -/
def statistics {F : Type} (A : Arith F) (size : Nat) (iterations : Int) (durations : List F) :
    Stats F :=
  let total := durations.foldl (fun acc val => A.add acc val) A.zero
  let avg := A.div total (A.ofInt iterations)
  let stddev := A.sqrt (A.div
    (durations.foldl (fun acc val => A.add acc (A.mul (A.sub val avg) (A.sub val avg))) A.zero)
    (A.ofInt iterations))
  let bandwidth := A.div (A.ofSizeT (bytesMoved size iterations)) (A.div total A.thousand)
  ⟨total, avg, stddev, bandwidth⟩

/-- What the device layer answers for one transfer: the results of the enqueue
call and of the wait, then of the two profiling queries with the timestamps
(nanoseconds) they deliver. -/
structure TransferReply where
  enqueueErr : Int
  waitErr : Int
  startErr : Int
  startNs : Nat
  endErr : Int
  endNs : Nat

/-- The sample of one iteration, `(end - start) * 1e-6`.  The result of
`clGetEventProfilingInfo` is not looked at; a query that fails leaves the
variable at its initial `0`.  The difference is taken in `cl_ulong`. -/
def sample (r : TransferReply) : Dbl :=
  let start := if r.startErr = 0 then r.startNs % 2 ^ 64 else 0
  let stop := if r.endErr = 0 then r.endNs % 2 ^ 64 else 0
  fmul (ofNat ((stop + 2 ^ 64 - start) % 2 ^ 64)) (ofDecimal false 1 (-6))

/-- What the program writes and which resources it creates, in order. -/
inductive Event where
  | usage (progName : String)
  | out (text : String)
  | err (text : String)
  | clError (msg : String) (code : Int)
  | result (label bandwidth : String) (total avg stddev : Dbl)
  | createContext
  | createCommandQueue
  | createBuffer (size : Nat)
  | mapBuffer (size : Nat)
  | memset (size : Nat)
  | release
deriving DecidableEq, Repr

/-- The timing loop `for (int i = 0; i < iterations; ++i)`: the first argument
counts the iterations left, the second is `i`.  A failed `CHECK_CL` leaves the
loop with the message that goes to `std::cerr`. -/
def timedLoop (enqueueMsg waitMsg : String) (reply : Nat → TransferReply) :
    Nat → Nat → List Dbl → Except Event (List Dbl)
  | 0, _, durations => Except.ok durations
  | left + 1, i, durations =>
    if (reply i).enqueueErr ≠ 0 then Except.error (Event.clError enqueueMsg (reply i).enqueueErr)
    else if (reply i).waitErr ≠ 0 then Except.error (Event.clError waitMsg (reply i).waitErr)
    else timedLoop enqueueMsg waitMsg reply left (i + 1) (durations ++ [sample (reply i)])

/-- How a routine ends: it returns, or `CHECK_CL` has called `std::exit(1)`. -/
inductive Pass where
  | done (trace : List Event)
  | exited (trace : List Event)
deriving DecidableEq, Repr

/-- The line a routine prints once its loop is over. -/
def reportLine (label : String) (size : Nat) (iterations : Int) (durations : List Dbl) : Event :=
  let s := statistics dblArith size iterations durations
  Event.result label (formatBytes s.bandwidth) s.total s.avg s.stddev

/-- The common text of the three routines. -/
def measureWithEvents (label enqueueMsg waitMsg : String) (reply : Nat → TransferReply)
    (size : Nat) (iterations : Int) : Pass :=
  match timedLoop enqueueMsg waitMsg reply iterations.toNat 0 [] with
  | Except.error e => Pass.exited [e]
  | Except.ok durations => Pass.done [reportLine label size iterations durations]

/-- Source: `measureWriteWithEvents`. -/
def measureWriteWithEvents (reply : Nat → TransferReply) (size : Nat) (iterations : Int) : Pass :=
  measureWithEvents "Host to Device:   " "enqueue write" "wait write" reply size iterations

/-- Source: `measureReadWithEvents`. -/
def measureReadWithEvents (reply : Nat → TransferReply) (size : Nat) (iterations : Int) : Pass :=
  measureWithEvents "Device to Host:   " "enqueue read" "wait read" reply size iterations

/-- Source: `measureDeviceToDeviceWithEvents`. -/
def measureDeviceToDeviceWithEvents (reply : Nat → TransferReply) (size : Nat)
    (iterations : Int) : Pass :=
  measureWithEvents "Device to Device: " "copy buffer" "wait" reply size iterations

/-! ## The device layer and `main` (`main.cpp`, lines 76-99 and 173-259) -/

/-- An OpenCL device, as far as the program looks at it. -/
structure Device where
  name : String
deriving DecidableEq, Repr

/-- An OpenCL platform with its devices. -/
structure Platform where
  name : String
  devices : List Device
deriving DecidableEq, Repr

/-- The answers of the OpenCL runtime during one execution.  Error codes are
`cl_int`, `0` is `CL_SUCCESS`.  A query that is repeated is answered the same
way, and `clGetDeviceIDs`, whose result the program never tests, is taken to
deliver the listed devices. -/
structure Env where
  platformCountErr : Int
  platformListErr : Int
  platforms : List Platform
  contextErr : Int
  queueErr : Int
  hostBufErr : Int
  mapErr : Int
  devBuf1Err : Int
  devBuf2Err : Int
  write : Nat → TransferReply
  read : Nat → TransferReply
  copy : Nat → TransferReply

/-- How the process ends: `exit` is a return from `main` or `std::exit`,
`terminate` is `std::terminate` after an exception nobody caught (the process
is aborted, it does not exit with a status of its own choosing). -/
inductive Status where
  | exit (code : Int)
  | terminate (e : Exn)
  | undefined
deriving DecidableEq, Repr

/-- One execution: what was written and created, and how it ended. -/
structure Run where
  trace : List Event
  status : Status
deriving DecidableEq, Repr

/-- The variables `size`, `iterations`, `selectedDevice` and `listOnly` of `main`. -/
structure Config where
  size : Nat
  iterations : Int
  selectedDevice : Int
  listOnly : Bool
deriving DecidableEq, Repr

/-- The initial values of lines 174-177. -/
def defaultConfig : Config := ⟨1024 * 1024 * 1024, 1, 0, false⟩

/-- Result of the argument loop: go on with a configuration, or stop there. -/
inductive Parsed where
  | run (cfg : Config)
  | stop (r : Run)
deriving DecidableEq, Repr

/-- The `else` branch of the argument loop. -/
def unknownOption (progName arg : String) : Parsed :=
  Parsed.stop ⟨[Event.err ("Unknown or malformed option: " ++ arg ++ "\n"), Event.usage progName],
    Status.exit 1⟩

/-- The argument loop of `main` (lines 180-198) over `argv[i], argv[i+1], ...`.
The test `i + 1 < argc` is the presence of a next element. -/
def parseArgs (lib : StdLib) (progName : String) : List String → Config → Parsed
  | [], cfg => Parsed.run cfg
  | [arg], cfg =>
    if arg = "--help" then Parsed.stop ⟨[Event.usage progName], Status.exit 0⟩
    else if arg = "--list-devices" then Parsed.run { cfg with listOnly := true }
    else unknownOption progName arg
  | arg :: value :: rest, cfg =>
    if arg = "--help" then Parsed.stop ⟨[Event.usage progName], Status.exit 0⟩
    else if arg = "--list-devices" then
      parseArgs lib progName (value :: rest) { cfg with listOnly := true }
    else if arg = "--device" then
      match lib.stoi value with
      | Res.ok n => parseArgs lib progName rest { cfg with selectedDevice := n }
      | Res.throw e => Parsed.stop ⟨[], Status.terminate e⟩
      | Res.undefined => Parsed.stop ⟨[], Status.undefined⟩
    else if arg = "--size" then
      match parseSizeArgument lib value with
      | Res.ok n => parseArgs lib progName rest { cfg with size := n }
      | Res.throw e => Parsed.stop ⟨[], Status.terminate e⟩
      | Res.undefined => Parsed.stop ⟨[], Status.undefined⟩
    else if arg = "--iter" then
      match lib.stoi value with
      | Res.ok n => parseArgs lib progName rest { cfg with iterations := n }
      | Res.throw e => Parsed.stop ⟨[], Status.terminate e⟩
      | Res.undefined => Parsed.stop ⟨[], Status.undefined⟩
    else unknownOption progName arg

/-- The lines `listAllOpenCLDevices` prints for the devices of one platform;
`deviceID` is the running index. -/
def listDevices : List Device → Nat → List Event
  | [], _ => []
  | d :: ds, deviceID =>
    Event.out ("  [" ++ Nat.repr deviceID ++ "] " ++ d.name ++ "\n") :: listDevices ds (deviceID + 1)

/-- The loop over the platforms in `listAllOpenCLDevices`. -/
def listPlatforms : List Platform → Nat → List Event
  | [], _ => []
  | p :: ps, deviceID =>
    Event.out ("Platform: " ++ p.name ++ "\n") :: listDevices p.devices deviceID
      ++ listPlatforms ps (deviceID + p.devices.length)

/-- Source: `listAllOpenCLDevices`, followed by the `return 0` of its caller;
its two `CHECK_CL` end the process with status 1. -/
def listAllOpenCLDevices (env : Env) : Run :=
  if env.platformCountErr ≠ 0 then
    ⟨[Event.clError "platform count" env.platformCountErr], Status.exit 1⟩
  else if env.platformListErr ≠ 0 then
    ⟨[Event.clError "platforms" env.platformListErr], Status.exit 1⟩
  else ⟨listPlatforms env.platforms 0, Status.exit 0⟩

/-- The vector `allDevices` of `main`. -/
def allDevices (env : Env) : List Device :=
  env.platforms.foldl (fun acc p => acc ++ p.devices) []

/-- The three passes and the release of the resources (lines 245-258). -/
def runPasses (env : Env) (cfg : Config) : Run :=
  match measureWriteWithEvents env.write cfg.size cfg.iterations with
  | Pass.exited t => ⟨t, Status.exit 1⟩
  | Pass.done t1 =>
    match measureReadWithEvents env.read cfg.size cfg.iterations with
    | Pass.exited t => ⟨t1 ++ t, Status.exit 1⟩
    | Pass.done t2 =>
      match measureDeviceToDeviceWithEvents env.copy cfg.size cfg.iterations with
      | Pass.exited t => ⟨t1 ++ t2 ++ t, Status.exit 1⟩
      | Pass.done t3 => ⟨t1 ++ t2 ++ t3 ++ [Event.release], Status.exit 0⟩

/-- Lines 224-258 of `main`, once a device has been selected.  The error codes
of `clCreateBuffer` and `clEnqueueMapBuffer` are stored and never tested; a
failed mapping returns a null pointer, which `std::memset` may not be given. -/
def benchmark (env : Env) (cfg : Config) (device : Device) : Run :=
  let head := [Event.out ("Using device: " ++ device.name ++ "\n"),
    Event.out ("Transfer size: " ++ Nat.repr cfg.size ++ " bytes (" ++ formatSize cfg.size
      ++ "), Iterations: " ++ toString cfg.iterations ++ "\n"),
    Event.createContext]
  if env.contextErr ≠ 0 then
    ⟨head ++ [Event.clError "create context" env.contextErr], Status.exit 1⟩
  else if env.queueErr ≠ 0 then
    ⟨head ++ [Event.createCommandQueue, Event.clError "create command queue" env.queueErr],
      Status.exit 1⟩
  else
    let alloc := head ++ [Event.createCommandQueue, Event.createBuffer cfg.size,
      Event.mapBuffer cfg.size, Event.createBuffer cfg.size, Event.createBuffer cfg.size]
    if env.mapErr ≠ 0 then ⟨alloc, Status.undefined⟩
    else
      let r := runPasses env cfg
      ⟨alloc ++ [Event.memset cfg.size,
        Event.out "Measuring OpenCL memory bandwidth (per-transfer timing)...\n"] ++ r.trace,
        r.status⟩

/-- The comparison `selectedDevice >= allDevices.size()`: the `int` is converted
to `size_t`, that is reduced modulo `2^64`. -/
def deviceIndexRejected (selectedDevice : Int) (count : Nat) : Bool :=
  decide (count ≤ (selectedDevice % 2 ^ 64).toNat)

/-- Lines 200-258 of `main`, after the argument loop. -/
def runConfig (env : Env) (cfg : Config) : Run :=
  if env.platformCountErr ≠ 0 then
    ⟨[Event.clError "platform count" env.platformCountErr], Status.exit 1⟩
  else if env.platformListErr ≠ 0 then
    ⟨[Event.clError "platform list" env.platformListErr], Status.exit 1⟩
  else if cfg.listOnly then listAllOpenCLDevices env
  else if deviceIndexRejected cfg.selectedDevice (allDevices env).length then
    ⟨[Event.err "Invalid device index.\n"], Status.exit 1⟩
  else
    match (allDevices env).get? (cfg.selectedDevice % 2 ^ 64).toNat with
    | some device => benchmark env cfg device
    | none => ⟨[], Status.undefined⟩

/-- Source: `int main(int argc, char* argv[])`, with `argv` as a list. -/
def main (lib : StdLib) (env : Env) (argv : List String) : Run :=
  match parseArgs lib (argv.headD "") (argv.drop 1) defaultConfig with
  | Parsed.stop r => r
  | Parsed.run cfg => runConfig env cfg

/-! ## Definitions used to state the properties -/

/-- The samples of the first `n` iterations of a pass, in order. -/
def samplesOf (reply : Nat → TransferReply) (n : Nat) : List Dbl :=
  (List.range n).map (fun i => sample (reply i))

/-- The bandwidth of a pass as the specification words it, `(N * size) / (total_ms / 1000)`,
read in `double` arithmetic, the byte count `N * size` being a `size_t`. -/
def aggregateBandwidth (size : Nat) (N : Int) (samples : List Dbl) : Dbl :=
  fdiv (ofNat ((N.toNat * size) % 2 ^ 64)) (fdiv (samples.foldl fadd zero) (ofNat 1000))

/-- A device layer in which every transfer succeeds and takes one millisecond. -/
def steadyReply : Nat → TransferReply := fun _ => ⟨0, 0, 0, 0, 0, 1000000⟩

/-- One platform with one device; every call of the device layer succeeds. -/
def steadyEnv : Env :=
  ⟨0, 0, [⟨"Platform", [⟨"GPU"⟩]⟩], 0, 0, 0, 0, 0, 0, steadyReply, steadyReply, steadyReply⟩

/-- As `steadyEnv`, but the first profiling query of the write pass fails with
`CL_PROFILING_INFO_NOT_AVAILABLE` (-7). -/
def profilingFailsEnv : Env :=
  { steadyEnv with
    write := fun _ => ⟨0, 0, -7, 500000, 0, 1000000⟩ }

/-- As `steadyEnv`, but the second device buffer cannot be allocated
(`CL_MEM_OBJECT_ALLOCATION_FAILURE`, -4) and the copy that uses it is refused
(`CL_INVALID_MEM_OBJECT`, -38). -/
def allocationFailsEnv : Env :=
  { steadyEnv with
    devBuf2Err := -4
    copy := fun _ => ⟨-38, 0, 0, 0, 0, 0⟩ }

/-- As `steadyEnv`, but buffers of size zero are refused (`CL_INVALID_BUFFER_SIZE`, -61)
and so are the mapping and the transfers on them (`CL_INVALID_MEM_OBJECT`, -38). -/
def zeroSizeEnv : Env :=
  { steadyEnv with
    hostBufErr := -61
    mapErr := -38
    devBuf1Err := -61
    devBuf2Err := -61
    write := fun _ => ⟨-38, 0, 0, 0, 0, 0⟩
    read := fun _ => ⟨-38, 0, 0, 0, 0, 0⟩
    copy := fun _ => ⟨-38, 0, 0, 0, 0, 0⟩ }

/-- What a routine writes is a report line or the message of `CHECK_CL`. -/
def passTrace : Pass → List Event
  | Pass.done t => t
  | Pass.exited t => t

/-- The power of 1024 a suffix letter stands for, in either case. -/
def suffixPower (c : Char) : Option Nat :=
  if c = 'K' ∨ c = 'k' then some 1
  else if c = 'M' ∨ c = 'm' then some 2
  else if c = 'G' ∨ c = 'g' then some 3
  else if c = 'T' ∨ c = 't' then some 4
  else none

/-! ## Lemmas on binary64 rounding -/

/-- With enough fuel `bitLenAux` is the bit length: `a < 2^L`, and `2^(L-1) ≤ a` when `a ≠ 0`. -/
theorem bitLenAux_spec : ∀ (fuel a : Nat), a ≤ fuel →
    a < 2 ^ bitLenAux fuel a ∧ (a ≠ 0 → 2 ^ (bitLenAux fuel a - 1) ≤ a) := by
  intro fuel
  induction fuel with
  | zero =>
    intro a h
    have : a = 0 := by omega
    subst this
    simp [bitLenAux]
  | succ f ih =>
    intro a h
    unfold bitLenAux
    by_cases ha : a = 0
    · simp [ha]
    · rw [if_neg ha]
      have hf : a / 2 ≤ f := by omega
      obtain ⟨h1, h2⟩ := ih (a / 2) hf
      refine ⟨?_, fun _ => ?_⟩
      · rw [pow_succ]; omega
      · simp only [Nat.add_sub_cancel]
        by_cases h0 : a / 2 = 0
        · have : bitLenAux f (a / 2) = 0 := by
            rw [h0]; cases f <;> simp [bitLenAux]
          rw [this]; simp; omega
        · have := h2 h0
          have hpos : 0 < bitLenAux f (a / 2) := by
            by_contra hc
            have : bitLenAux f (a / 2) = 0 := by omega
            rw [this] at h1
            simp at h1
            exact h0 h1
          have e : bitLenAux f (a / 2) = (bitLenAux f (a / 2) - 1) + 1 := by omega
          rw [e, pow_succ]
          omega

/-- A number is below two to the power of its bit length. -/
theorem lt_two_pow_bitLen (a : Nat) : a < 2 ^ bitLen a := (bitLenAux_spec a a (le_refl a)).1

/-- A non-zero number has its top bit set. -/
theorem two_pow_bitLen_le (a : Nat) (h : a ≠ 0) : 2 ^ (bitLen a - 1) ≤ a :=
  (bitLenAux_spec a a (le_refl a)).2 h

/-- A number below `2^k` has at most `k` bits. -/
theorem bitLen_le_of_lt (a k : Nat) (h : a < 2 ^ k) : bitLen a ≤ k := by
  by_cases ha : a = 0
  · subst ha; simp [bitLen, bitLenAux]
  · have h1 := two_pow_bitLen_le a ha
    by_contra hc
    have : k ≤ bitLen a - 1 := by omega
    have := Nat.pow_le_pow_right (show 0 < 2 by decide) this
    omega

/-- A number of at least `2^k` has more than `k` bits. -/
theorem lt_bitLen_of_le (a k : Nat) (h : 2 ^ k ≤ a) : k < bitLen a := by
  by_contra hc
  have : bitLen a ≤ k := by omega
  have h1 := lt_two_pow_bitLen a
  have := Nat.pow_le_pow_right (show 0 < 2 by decide) this
  omega

/-- A non-zero number has at least one bit. -/
theorem bitLen_pos (a : Nat) (h : a ≠ 0) : 0 < bitLen a :=
  lt_bitLen_of_le a 0 (by simp; omega)

/-- Stripping the factors of two of `b * 2^j`, `b` odd, gives `b` and adds `j` to the exponent. -/
theorem stripTwos_odd_mul : ∀ (j fuel b : Nat) (e : Int), b % 2 = 1 → b * 2 ^ j ≤ fuel →
    stripTwos fuel (b * 2 ^ j) e = (b, e + j) := by
  intro j
  induction j with
  | zero =>
    intro fuel b e hb _
    cases fuel with
    | zero => simp [stripTwos]
    | succ f => simp [stripTwos, hb]
  | succ j ih =>
    intro fuel b e hb hf
    have hpos : 0 < b * 2 ^ j := Nat.mul_pos (by omega) (by positivity)
    have hmul : b * 2 ^ (j + 1) = 2 * (b * 2 ^ j) := by rw [pow_succ]; ring
    cases fuel with
    | zero => omega
    | succ f =>
      unfold stripTwos
      have c : b * 2 ^ (j + 1) ≠ 0 ∧ b * 2 ^ (j + 1) % 2 = 0 := by
        rw [hmul]; constructor <;> omega
      rw [if_pos c]
      have hd : b * 2 ^ (j + 1) / 2 = b * 2 ^ j := by rw [hmul]; omega
      rw [hd, ih f b (e + 1) hb (by omega)]
      congr 1
      push_cast
      ring

/-- Every non-zero number is an odd number times a power of two. -/
theorem exists_odd_mul (a : Nat) (h : a ≠ 0) : ∃ b j, b % 2 = 1 ∧ a = b * 2 ^ j := by
  obtain ⟨k, m, hm, rfl⟩ := Nat.exists_eq_two_pow_mul_odd h
  exact ⟨m, k, Nat.odd_iff.mp hm, by ring⟩

/-- Packing an odd significand below the overflow threshold keeps it. -/
theorem pack_odd (neg : Bool) (b : Nat) (e : Int) (hb : b % 2 = 1)
    (hr : (bitLen b : Int) + e ≤ 1024) : pack neg b e = Dbl.fin (withSign neg b) e := by
  have h0 : b ≠ 0 := by omega
  have hs := stripTwos_odd_mul 0 b b e hb (by simp)
  simp only [pow_zero, mul_one, Nat.cast_zero, add_zero] at hs
  unfold pack
  rw [if_neg h0]
  simp only [hs]
  rw [if_neg (by omega)]

/-- Packing `b * 2^j`, `b` odd, below the overflow threshold gives `b` with exponent `e + j`. -/
theorem pack_odd_mul (neg : Bool) (b j : Nat) (e : Int) (hb : b % 2 = 1)
    (hr : (bitLen b : Int) + (e + j) ≤ 1024) :
    pack neg (b * 2 ^ j) e = Dbl.fin (withSign neg b) (e + j) := by
  have h0 : b * 2 ^ j ≠ 0 := Nat.mul_ne_zero (by omega) (by positivity)
  have hs := stripTwos_odd_mul j _ b e hb (le_refl _)
  unfold pack
  rw [if_neg h0]
  simp only [hs]
  rw [if_neg (by omega)]

/-- A value that fits binary64 is not changed by rounding. -/
theorem roundDyadic_exact (neg : Bool) (b j : Nat) (e : Int) (hb : b % 2 = 1)
    (h53 : b < 2 ^ 53) (hlo : -1074 ≤ e + j) (hhi : (bitLen b : Int) + (e + j) ≤ 1024) :
    roundDyadic neg (b * 2 ^ j) e = Dbl.fin (withSign neg b) (e + j) := by
  have h0 : b * 2 ^ j ≠ 0 := Nat.mul_ne_zero (by omega) (by positivity)
  have hs := stripTwos_odd_mul j _ b e hb (le_refl _)
  have hbl := bitLen_le_of_lt b 53 h53
  unfold roundDyadic
  rw [if_neg h0]
  simp only [hs]
  rw [if_pos (by omega)]
  exact pack_odd neg b (e + j) hb hhi

/-- A positive number below `2^u` has fewer than `u` bits once its exponent is counted. -/
theorem bitLen_add_le (b : Nat) (t : Int) (u : Nat) (hb : b ≠ 0)
    (h : (b : ℚ) * (2 : ℚ) ^ t < 2 ^ u) : (bitLen b : Int) + t ≤ u := by
  have h1 := two_pow_bitLen_le b hb
  have hpos := bitLen_pos b hb
  by_contra hc
  have hge : (u : Int) ≤ (bitLen b - 1 : Nat) + t := by omega
  have h2 : ((2 : ℚ) ^ (bitLen b - 1)) * (2 : ℚ) ^ t ≤ (b : ℚ) * (2 : ℚ) ^ t := by
    apply mul_le_mul_of_nonneg_right _ (by positivity)
    exact_mod_cast h1
  have h3 : ((2 : ℚ) ^ (bitLen b - 1)) * (2 : ℚ) ^ t = (2 : ℚ) ^ (((bitLen b - 1 : Nat) : Int) + t) := by
    rw [zpow_add₀ (by norm_num), zpow_natCast]
  have h4 : (2 : ℚ) ^ (u : Int) ≤ (2 : ℚ) ^ (((bitLen b - 1 : Nat) : Int) + t) :=
    zpow_le_zpow_right₀ (by norm_num) hge
  rw [zpow_natCast] at h4
  linarith [h3 ▸ h2]

/-- On a non-negative finite double below `2^64` the cast to `size_t` is the floor. -/
theorem toSizeT_floor (b : Nat) (t : Int) (h : (b : ℚ) * (2 : ℚ) ^ t < 2 ^ 64) :
    toSizeT (Dbl.fin b t) = some ⌊(b : ℚ) * (2 : ℚ) ^ t⌋.toNat := by
  unfold toSizeT
  by_cases ht : 0 ≤ t
  · obtain ⟨s, rfl⟩ := Int.eq_ofNat_of_zero_le ht
    have hq : (b : ℚ) * (2 : ℚ) ^ ((s : Nat) : Int) = ((b * 2 ^ s : Nat) : ℚ) := by
      push_cast; rw [zpow_natCast]
    rw [hq] at h ⊢
    have hlt : b * 2 ^ s < 2 ^ 64 := by exact_mod_cast h
    simp only [ht, if_true, Int.toNat_ofNat, Int.floor_natCast]
    have hi : (0 : Int) ≤ (b : Int) * 2 ^ s ∧ (b : Int) * 2 ^ s < 2 ^ 64 := by
      constructor
      · positivity
      · exact_mod_cast hlt
    rw [if_pos hi]
    congr 1
    have : (b : Int) * 2 ^ s = ((b * 2 ^ s : Nat) : Int) := by push_cast; rfl
    rw [this, Int.toNat_ofNat]
  · have hneg : 0 ≤ -t := by omega
    obtain ⟨s, hs⟩ := Int.eq_ofNat_of_zero_le hneg
    have ht' : t = -(s : Int) := by omega
    subst ht'
    have hq : (b : ℚ) * (2 : ℚ) ^ (-(s : Int)) = (b : ℚ) / ((2 ^ s : Nat) : ℚ) := by
      rw [zpow_neg, zpow_natCast, div_eq_mul_inv]; push_cast; rfl
    rw [hq] at h ⊢
    rw [Rat.floor_natCast_div_natCast]
    simp only [ht, if_false, neg_neg, Int.toNat_ofNat]
    have hd : Int.tdiv (b : Int) (2 ^ s) = ((b / 2 ^ s : Nat) : Int) := by
      rw [Int.ofNat_tdiv]; push_cast; rfl
    rw [hd]
    have hlt : b / 2 ^ s < 2 ^ 64 := by
      have h1 : ((b / 2 ^ s : Nat) : ℚ) ≤ (b : ℚ) / ((2 ^ s : Nat) : ℚ) := Nat.cast_div_le
      have : ((b / 2 ^ s : Nat) : ℚ) < 2 ^ 64 := lt_of_le_of_lt h1 h
      exact_mod_cast this
    have hi : (0 : Int) ≤ ((b / 2 ^ s : Nat) : Int) ∧ ((b / 2 ^ s : Nat) : Int) < 2 ^ 64 := by
      constructor
      · positivity
      · exact_mod_cast hlt
    rw [if_pos hi]
    simp

/-- Multiplying a positive finite double by `1024^k` is exact as long as the result is in range. -/
theorem fmul_pow1024 (b : Nat) (e : Int) (k : Nat) (hb : b % 2 = 1) (h53 : b < 2 ^ 53)
    (hlo : -1074 ≤ e + 10 * k) (hhi : (bitLen b : Int) + (e + 10 * k) ≤ 1024) :
    fmul (Dbl.fin b e) (pow1024 k) = Dbl.fin b (e + 10 * k) := by
  have := roundDyadic_exact false b 0 (e + 10 * k) hb h53 (by simpa using hlo) (by simpa using hhi)
  simp only [pow_zero, mul_one, Nat.cast_zero, add_zero, withSign] at this
  simp only [fmul, pow1024, mul_one, Int.natAbs_ofNat, Int.natAbs_one]
  have hd : decide ((b : Int) < 0) = false := by simp
  rw [hd]
  simpa using this

/-- The comparison `>=` of two finite doubles is the comparison of their values. -/
theorem fge_fin_iff (m1 e1 m2 e2 : Int) :
    fge (Dbl.fin m1 e1) (Dbl.fin m2 e2) = true
      ↔ (m2 : ℚ) * (2 : ℚ) ^ e2 ≤ (m1 : ℚ) * (2 : ℚ) ^ e1 := by
  unfold fge
  simp only [decide_eq_true_eq]
  have hpow : ∀ x : Int, min e1 e2 ≤ x →
      (((2 : Int) ^ (x - min e1 e2).toNat : Int) : ℚ) = (2 : ℚ) ^ x * ((2 : ℚ) ^ (min e1 e2))⁻¹ := by
    intro x hx
    push_cast
    rw [← zpow_natCast, Int.toNat_of_nonneg (by omega), zpow_sub₀ (by norm_num), div_eq_mul_inv]
  have hpos : (0 : ℚ) < ((2 : ℚ) ^ (min e1 e2))⁻¹ := by positivity
  rw [← @Int.cast_le ℚ]
  push_cast
  have h1 := hpow e1 (min_le_left _ _)
  have h2 := hpow e2 (min_le_right _ _)
  push_cast at h1 h2
  rw [h1, h2, ← mul_assoc, ← mul_assoc]
  exact mul_le_mul_right hpos

/-- Dividing a positive finite double by 1024 is exact as long as the result is in range. -/
theorem fdiv_1024 (b : Nat) (u : Int) (hb : b % 2 = 1) (h53 : b < 2 ^ 53)
    (hlo : -1074 ≤ u - 10) (hhi : (bitLen b : Int) + (u - 10) ≤ 1024) :
    fdiv (Dbl.fin b u) (pow1024 1) = Dbl.fin b (u - 10) := by
  have hk : bitLen 1 = 1 := by decide
  have := roundDyadic_exact false b 66 (u - 76) hb h53 (by omega) (by omega)
  simp only [withSign] at this
  simp only [fdiv, pow1024, roundRatio, Int.natAbs_ofNat, Int.natAbs_one, hk, Nat.mod_one,
    Nat.div_one, if_true, add_zero]
  have hd1 : decide ((b : Int) < 0) = false := by simp
  have hd2 : decide ((1 : Int) < 0) = false := by decide
  have h1 : (1 : Int) ≠ 0 := by decide
  rw [hd1, hd2, if_neg h1]
  have e1 : 2 * (b * 2 ^ (1 + 64)) = b * 2 ^ 66 := by ring
  have e2 : u - (10 * ((1 : Nat) : Int)) - (((1 + 64 : Nat)) : Int) - 1 = u - 76 := by
    push_cast; ring
  simp only [Bool.xor_false]
  rw [e1, e2, this]
  congr 1
  push_cast
  ring

/-- Rounding to nearest, ties to even, is off by at most one half. -/
theorem roundHalfEven_spec (a s : Nat) (hs : 0 < s) :
    |((roundHalfEven (a / 2 ^ s) (a % 2 ^ s) s : Nat) : ℚ) - (a : ℚ) / 2 ^ s| ≤ 1 / 2 := by
  have hd : (2 : ℚ) ^ s = 2 * 2 ^ (s - 1) := by
    rw [← pow_succ']; congr 1; omega
  have hdN : 2 ^ s = 2 * 2 ^ (s - 1) := by
    rw [← pow_succ']; congr 1; omega
  have hpos : (0 : ℚ) < 2 ^ (s - 1) := by positivity
  have hdiv : (a : ℚ) = ((a / 2 ^ s : Nat) : ℚ) * 2 ^ s + ((a % 2 ^ s : Nat) : ℚ) := by
    have := Nat.div_add_mod a (2 ^ s)
    have h2 : ((2 ^ s * (a / 2 ^ s) + a % 2 ^ s : Nat) : ℚ) = (a : ℚ) := by rw [this]
    push_cast at h2
    linarith
  have hlt : a % 2 ^ s < 2 ^ s := Nat.mod_lt _ (by positivity)
  have hltq : ((a % 2 ^ s : Nat) : ℚ) < 2 * 2 ^ (s - 1) := by
    rw [← hd]; exact_mod_cast hlt
  set q := a / 2 ^ s with hq
  set r := a % 2 ^ s with hr
  have key : (a : ℚ) / 2 ^ s = (q : ℚ) + (r : ℚ) / (2 * 2 ^ (s - 1)) := by
    rw [hdiv, hd]; field_simp
  unfold roundHalfEven
  rw [key]
  split_ifs with h
  · have hge : (2 : ℚ) ^ (s - 1) ≤ (r : ℚ) := by
      rcases h with h | ⟨h, _⟩
      · have : 2 ^ (s - 1) ≤ r := Nat.le_of_lt h
        exact_mod_cast this
      · rw [h]; push_cast; exact le_refl _
    push_cast
    rw [abs_le]
    constructor
    · have : (r : ℚ) / (2 * 2 ^ (s - 1)) ≤ 1 := by
        rw [div_le_one (by positivity)]; exact le_of_lt hltq
      linarith
    · have : (1 : ℚ) / 2 ≤ (r : ℚ) / (2 * 2 ^ (s - 1)) := by
        rw [div_le_div_iff₀ (by norm_num) (by positivity)]; linarith
      linarith
  · have hle : (r : ℚ) ≤ 2 ^ (s - 1) := by
      have : ¬ r > 2 ^ (s - 1) := fun hc => h (Or.inl hc)
      have : r ≤ 2 ^ (s - 1) := Nat.le_of_not_lt this
      exact_mod_cast this
    rw [abs_le]
    constructor
    · have : (r : ℚ) / (2 * 2 ^ (s - 1)) ≤ 1 / 2 := by
        rw [div_le_div_iff₀ (by positivity) (by norm_num)]; linarith
      linarith
    · have : (0 : ℚ) ≤ (r : ℚ) / (2 * 2 ^ (s - 1)) := by positivity
      linarith

/-- Rounding to nearest in natural numbers: the result times `2^s` is within `2^(s-1)` of `a`. -/
theorem roundHalfEven_nat (a s : Nat) (hs : 0 < s) :
    a / 2 ^ s ≤ roundHalfEven (a / 2 ^ s) (a % 2 ^ s) s ∧
    roundHalfEven (a / 2 ^ s) (a % 2 ^ s) s * 2 ^ s ≤ a + 2 ^ (s - 1) ∧
    a ≤ roundHalfEven (a / 2 ^ s) (a % 2 ^ s) s * 2 ^ s + 2 ^ (s - 1) := by
  have hd : 2 ^ s = 2 * 2 ^ (s - 1) := by
    rw [← pow_succ']; congr 1; omega
  have hdm := Nat.div_add_mod a (2 ^ s)
  have hlt : a % 2 ^ s < 2 ^ s := Nat.mod_lt _ (by positivity)
  unfold roundHalfEven
  split_ifs with h
  · have hge : 2 ^ (s - 1) ≤ a % 2 ^ s := by
      rcases h with h | ⟨h, _⟩
      · exact Nat.le_of_lt h
      · exact Nat.le_of_eq h.symm
    refine ⟨Nat.le_succ _, ?_, ?_⟩
    · rw [Nat.add_mul, Nat.mul_comm (a / 2 ^ s)]; omega
    · rw [Nat.add_mul, Nat.mul_comm (a / 2 ^ s)]; omega
  · have hle : a % 2 ^ s ≤ 2 ^ (s - 1) := by
      have : ¬ a % 2 ^ s > 2 ^ (s - 1) := fun hc => h (Or.inl hc)
      omega
    refine ⟨le_refl _, ?_, ?_⟩
    · rw [Nat.mul_comm (a / 2 ^ s)]; omega
    · rw [Nat.mul_comm (a / 2 ^ s)]; omega

/-- A value rounded by `roundHalfEven` that lies exactly half way between two integers is even. -/
theorem roundHalfEven_tie (a s : Nat) (hs : 0 < s)
    (h : |((roundHalfEven (a / 2 ^ s) (a % 2 ^ s) s : Nat) : ℚ) - (a : ℚ) / 2 ^ s| = 1 / 2) :
    roundHalfEven (a / 2 ^ s) (a % 2 ^ s) s % 2 = 0 := by
  have hd : (2 : ℚ) ^ s = 2 * 2 ^ (s - 1) := by
    rw [← pow_succ']; congr 1; omega
  have hpos : (0 : ℚ) < 2 ^ (s - 1) := by positivity
  have hdiv : (a : ℚ) = ((a / 2 ^ s : Nat) : ℚ) * 2 ^ s + ((a % 2 ^ s : Nat) : ℚ) := by
    have := Nat.div_add_mod a (2 ^ s)
    have h2 : ((2 ^ s * (a / 2 ^ s) + a % 2 ^ s : Nat) : ℚ) = (a : ℚ) := by rw [this]
    push_cast at h2
    linarith
  have hlt : a % 2 ^ s < 2 ^ s := Nat.mod_lt _ (by positivity)
  have hltq : ((a % 2 ^ s : Nat) : ℚ) < 2 * 2 ^ (s - 1) := by
    rw [← hd]; exact_mod_cast hlt
  set q := a / 2 ^ s with hq
  set r := a % 2 ^ s with hr
  have key : (a : ℚ) / 2 ^ s = (q : ℚ) + (r : ℚ) / (2 * 2 ^ (s - 1)) := by
    rw [hdiv, hd]; field_simp
  rw [key] at h
  have hr0 : (0 : ℚ) ≤ (r : ℚ) := by positivity
  unfold roundHalfEven at h ⊢
  split_ifs at h ⊢ with hc
  · -- rounded up
    push_cast at h
    have e : (q : ℚ) + 1 - ((q : ℚ) + (r : ℚ) / (2 * 2 ^ (s - 1)))
        = 1 - (r : ℚ) / (2 * 2 ^ (s - 1)) := by ring
    rw [e] at h
    have hle1 : (r : ℚ) / (2 * 2 ^ (s - 1)) ≤ 1 := by
      rw [div_le_one (by positivity)]; exact le_of_lt hltq
    rw [abs_of_nonneg (by linarith)] at h
    have hrh : (r : ℚ) = 2 ^ (s - 1) := by
      have : (r : ℚ) / (2 * 2 ^ (s - 1)) = 1 / 2 := by linarith
      field_simp at this
      linarith
    have hrn : r = 2 ^ (s - 1) := by exact_mod_cast hrh
    rcases hc with hc | ⟨_, hodd⟩
    · omega
    · omega
  · have e : (q : ℚ) - ((q : ℚ) + (r : ℚ) / (2 * 2 ^ (s - 1)))
        = - ((r : ℚ) / (2 * 2 ^ (s - 1))) := by ring
    rw [e, abs_neg, abs_of_nonneg (by positivity)] at h
    have hrh : (r : ℚ) = 2 ^ (s - 1) := by
      field_simp at h
      linarith
    have hrn : r = 2 ^ (s - 1) := by exact_mod_cast hrh
    have : ¬ (q % 2 = 1) := fun hodd => hc (Or.inr ⟨hrn, hodd⟩)
    omega

/-- The two-decimal text of a non-negative finite double shows the hundredths nearest to its
value, the even one when two are equally near. -/
theorem fixed2_spec (b : Nat) (u : Int) :
    ∃ r : Nat, fixed2 (Dbl.fin b u) = Nat.repr (r / 100) ++ "." ++ twoDigits (r % 100) ∧
      |(r : ℚ) - 100 * ((b : ℚ) * (2 : ℚ) ^ u)| ≤ 1 / 2 ∧
      (|(r : ℚ) - 100 * ((b : ℚ) * (2 : ℚ) ^ u)| = 1 / 2 → r % 2 = 0) := by
  have hneg : ¬ ((b : Int) < 0) := by simp
  by_cases hu : 0 ≤ u
  · refine ⟨b * 100 * 2 ^ u.toNat, ?_, ?_, ?_⟩
    · simp only [fixed2, Int.natAbs_ofNat, hu, if_true, hneg, if_false, String.empty_append]
    · obtain ⟨s, rfl⟩ := Int.eq_ofNat_of_zero_le hu
      push_cast
      rw [Int.toNat_ofNat, zpow_natCast]
      have : (b : ℚ) * 100 * 2 ^ s - 100 * ((b : ℚ) * 2 ^ s) = 0 := by ring
      rw [this]; norm_num
    · obtain ⟨s, rfl⟩ := Int.eq_ofNat_of_zero_le hu
      push_cast
      rw [Int.toNat_ofNat, zpow_natCast]
      have : (b : ℚ) * 100 * 2 ^ s - 100 * ((b : ℚ) * 2 ^ s) = 0 := by ring
      rw [this]; norm_num
  · have hs : 0 < (-u).toNat := by omega
    have hv : 100 * ((b : ℚ) * (2 : ℚ) ^ u) = ((b * 100 : Nat) : ℚ) / 2 ^ (-u).toNat := by
      have hu2 : u = -(((-u).toNat : Nat) : Int) := by omega
      conv_lhs => rw [hu2, zpow_neg, zpow_natCast]
      push_cast
      field_simp
      ring
    refine ⟨roundHalfEven (b * 100 / 2 ^ (-u).toNat) (b * 100 % 2 ^ (-u).toNat) (-u).toNat,
      ?_, ?_, ?_⟩
    · simp only [fixed2, Int.natAbs_ofNat, hu, if_false, hneg, String.empty_append]
    · rw [hv]; exact roundHalfEven_spec (b * 100) (-u).toNat hs
    · rw [hv]; exact roundHalfEven_tie (b * 100) (-u).toNat hs

/-- Below one hundred `twoDigits` writes exactly two characters. -/
theorem twoDigits_length (k : Nat) (h : k < 100) : (twoDigits k).length = 2 := by
  interval_cases k <;> decide

/-- Below one hundred `twoDigits` writes the tens digit, then the units digit. -/
theorem twoDigits_eq (k : Nat) (h : k < 100) :
    twoDigits k = String.mk [Char.ofNat (48 + k / 10), Char.ofNat (48 + k % 10)] := by
  interval_cases k <;> decide

/-- The scaling loop on a finite double `b * 2^t` that is `size_t`-sized: it stops at the
first index whose scaled value is below 1024, or at 4, and every division is exact. -/
theorem scaleLoop_spec (b t : Nat) (hb : b % 2 = 1) (h53 : b < 2 ^ 53) (ht : t ≤ 64) :
    ∀ (fuel i : Nat), i + fuel = 4 → (∀ j < i, 1024 ^ (j + 1) ≤ b * 2 ^ t) →
      ∃ i' : Nat, i' ≤ 4 ∧
        scaleLoop fuel (Dbl.fin b ((t : Int) - 10 * (i : Int))) i
          = (Dbl.fin b ((t : Int) - 10 * (i' : Int)), i') ∧
        (∀ j < i', 1024 ^ (j + 1) ≤ b * 2 ^ t) ∧ (i' < 4 → b * 2 ^ t < 1024 ^ (i' + 1)) := by
  have hbl : bitLen b ≤ 53 := bitLen_le_of_lt b 53 h53
  have hcmp : ∀ i : Nat, fge (Dbl.fin b ((t : Int) - 10 * i)) (pow1024 1) = true
      ↔ 1024 ^ (i + 1) ≤ b * 2 ^ t := by
    intro i
    unfold pow1024
    rw [fge_fin_iff]
    have h1 : (((b : Nat) : Int) : ℚ) * (2 : ℚ) ^ ((t : Int) - 10 * i)
        = ((b * 2 ^ t : Nat) : ℚ) / 1024 ^ i := by
      rw [zpow_sub₀ (by norm_num), zpow_natCast]
      rw [show (10 * (i : Int)) = ((10 * i : Nat) : Int) by push_cast; rfl, zpow_natCast, pow_mul]
      push_cast
      norm_num
      ring
    rw [h1, le_div_iff₀ (by positivity)]
    have h2 : (((1 : Int) : ℚ)) * (2 : ℚ) ^ ((10 : Int) * ((1 : Nat) : Int)) * 1024 ^ i
        = ((1024 ^ (i + 1) : Nat) : ℚ) := by
      push_cast
      norm_num
      ring
    rw [h2, Nat.cast_le]
  intro fuel
  induction fuel with
  | zero =>
    intro i hi hj
    have : i = 4 := by omega
    subst this
    exact ⟨4, le_refl _, by simp [scaleLoop], hj, fun h => absurd h (by decide)⟩
  | succ f ih =>
    intro i hi hj
    unfold scaleLoop
    by_cases hc : 1024 ^ (i + 1) ≤ b * 2 ^ t
    · have hi4 : i < 4 := by omega
      rw [(hcmp i).mpr hc]
      simp only [hi4, decide_True, Bool.and_self, if_true]
      rw [fdiv_1024 b _ hb h53 (by omega) (by omega)]
      have e : (t : Int) - 10 * i - 10 = (t : Int) - 10 * ((i + 1 : Nat) : Int) := by
        push_cast; ring
      rw [e]
      apply ih (i + 1) (by omega)
      intro j hj'
      by_cases hji : j < i
      · exact hj j hji
      · have : j = i := by omega
        subst this
        exact hc
    · have hf : fge (Dbl.fin b ((t : Int) - 10 * i)) (pow1024 1) = false := by
        rw [Bool.eq_false_iff]
        exact fun h => hc ((hcmp i).mp h)
      rw [hf]
      simp only [Bool.false_and, Bool.false_eq_true, if_false]
      exact ⟨i, by omega, rfl, hj, fun _ => by omega⟩

/-- The conversion of a non-zero `size_t` to `double`: exact below `2^53`, and
otherwise off by at most `2^10`. -/
theorem ofNat_spec (n : Nat) (h0 : n ≠ 0) (hn : n < 2 ^ 64) :
    ∃ b t : Nat, ofNat n = Dbl.fin b t ∧ b % 2 = 1 ∧ b < 2 ^ 53 ∧ t ≤ 64 ∧
      (n < 2 ^ 53 → b * 2 ^ t = n) ∧ (2 ^ 53 ≤ n → 2 ^ 53 ≤ b * 2 ^ t) ∧
      b * 2 ^ t ≤ n + 2 ^ 10 ∧ n ≤ b * 2 ^ t + 2 ^ 10 := by
  obtain ⟨b0, j, hodd, rfl⟩ := exists_odd_mul n h0
  have hb0 : b0 ≠ 0 := by omega
  have hs := stripTwos_odd_mul j _ b0 0 hodd (le_refl _)
  have hlo := two_pow_bitLen_le b0 hb0
  have hhi := lt_two_pow_bitLen b0
  have hbpos := bitLen_pos b0 hb0
  have hJ : 0 < 2 ^ j := by positivity
  -- the bits of `b0` and the exponent fit 64 bits together
  have hbj : bitLen b0 - 1 + j < 64 := by
    by_contra hc
    have h1 : 2 ^ 64 ≤ 2 ^ (bitLen b0 - 1 + j) :=
      Nat.pow_le_pow_right (by decide) (by omega)
    rw [pow_add] at h1
    have h2 : 2 ^ (bitLen b0 - 1) * 2 ^ j ≤ b0 * 2 ^ j := Nat.mul_le_mul_right _ hlo
    omega
  unfold ofNat roundDyadic
  rw [if_neg h0]
  simp only [hs]
  by_cases hbits : bitLen b0 ≤ 53
  · have hsh : max ((bitLen b0 : Int) - 53) (-1074 - (0 + (j : Int))) ≤ 0 := by
      apply max_le <;> omega
    rw [if_pos hsh, pack_odd false b0 _ hodd (by omega)]
    have hb53 : b0 < 2 ^ 53 :=
      lt_of_lt_of_le hhi (Nat.pow_le_pow_right (by decide) hbits)
    refine ⟨b0, j, by simp [withSign], hodd, hb53, by omega, fun _ => rfl, fun h => h,
      by omega, by omega⟩
  · have hbits' : 53 < bitLen b0 := by omega
    have hmax : max ((bitLen b0 : Int) - 53) (-1074 - (0 + (j : Int)))
        = ((bitLen b0 - 53 : Nat) : Int) := by
      rw [max_eq_left (by omega)]; omega
    rw [hmax, if_neg (by omega), Int.toNat_ofNat]
    set s := bitLen b0 - 53 with hsdef
    have hspos : 0 < s := by omega
    have hsj : s + j ≤ 11 := by omega
    obtain ⟨hq1, hq2, hq3⟩ := roundHalfEven_nat b0 s hspos
    set q' := roundHalfEven (b0 / 2 ^ s) (b0 % 2 ^ s) s with hq'def
    have hP : 0 < 2 ^ s := by positivity
    have hbl1 : bitLen b0 = 53 + s := by omega
    have hbl2 : bitLen b0 - 1 = 52 + s := by omega
    have hq52 : 2 ^ 52 ≤ b0 / 2 ^ s := by
      rw [Nat.le_div_iff_mul_le hP, ← pow_add, ← hbl2]; exact hlo
    have hq53 : b0 / 2 ^ s < 2 ^ 53 := by
      rw [Nat.div_lt_iff_lt_mul hP, ← pow_add, ← hbl1]; exact hhi
    have hq'lo : 2 ^ 52 ≤ q' := le_trans hq52 hq1
    have hq'hi : q' ≤ 2 ^ 53 := by
      have : q' * 2 ^ s ≤ 2 ^ 53 * 2 ^ s + 2 ^ (s - 1) := by
        have : b0 < 2 ^ 53 * 2 ^ s := by rw [← pow_add, ← hbl1]; exact hhi
        omega
      by_contra hc
      have h1 : (2 ^ 53 + 1) * 2 ^ s ≤ q' * 2 ^ s := Nat.mul_le_mul_right _ (by omega)
      have h2 : 2 ^ (s - 1) < 2 ^ s := Nat.pow_lt_pow_right (by decide) (by omega)
      rw [Nat.add_mul] at h1
      omega
    have hq'0 : q' ≠ 0 := by
      have : 0 < 2 ^ 52 := by positivity
      omega
    obtain ⟨b', j', hodd', hq'eq⟩ := exists_odd_mul q' hq'0
    have hJ' : 0 < 2 ^ j' := by positivity
    have hb'le : b' ≤ q' := by
      rw [hq'eq]; exact Nat.le_mul_of_pos_right _ hJ'
    have hb'53 : b' < 2 ^ 53 := by
      have h2 : (2 : Nat) ^ 53 % 2 = 0 := by decide
      by_contra hc
      have : b' = 2 ^ 53 := by omega
      omega
    have hj'53 : j' ≤ 53 := by
      by_contra hc
      have h1 : 2 ^ 54 ≤ 2 ^ j' := Nat.pow_le_pow_right (by decide) (by omega)
      have h2 : 2 ^ j' ≤ b' * 2 ^ j' := Nat.le_mul_of_pos_left _ (by omega)
      have h3 : (2 : Nat) ^ 53 < 2 ^ 54 := by decide
      omega
    have hbl' : bitLen b' ≤ 53 := bitLen_le_of_lt b' 53 hb'53
    -- the packed result
    have hpk : pack false q' (0 + (j : Int) + ((s : Nat) : Int))
        = Dbl.fin ((b' : Nat) : Int) (((j + s + j' : Nat)) : Int) := by
      rw [hq'eq, pack_odd_mul false b' j' _ hodd' (by omega)]
      simp only [withSign, Bool.false_eq_true, if_false]
      congr 1
      push_cast
      ring
    rw [hpk]
    -- the value found
    have hV : b' * 2 ^ (j + s + j') = q' * 2 ^ s * 2 ^ j := by
      rw [hq'eq, pow_add, pow_add]; ring
    have hHJ : 2 ^ (s - 1) * 2 ^ j ≤ 2 ^ 10 := by
      rw [← pow_add]; exact Nat.pow_le_pow_right (by decide) (by omega)
    have hge : 2 ^ 53 ≤ q' * 2 ^ s * 2 ^ j := by
      have h1 : 2 ^ 52 * 2 ^ 1 ≤ q' * 2 ^ s :=
        Nat.mul_le_mul hq'lo (Nat.pow_le_pow_right (by decide) hspos)
      have h2 : q' * 2 ^ s * 1 ≤ q' * 2 ^ s * 2 ^ j := Nat.mul_le_mul_left _ hJ
      have h3 : (2 : Nat) ^ 52 * 2 ^ 1 = 2 ^ 53 := by decide
      omega
    have hup : q' * 2 ^ s * 2 ^ j ≤ b0 * 2 ^ j + 2 ^ 10 := by
      have h1 : q' * 2 ^ s * 2 ^ j ≤ (b0 + 2 ^ (s - 1)) * 2 ^ j := Nat.mul_le_mul_right _ hq2
      rw [Nat.add_mul] at h1
      omega
    have hdn : b0 * 2 ^ j ≤ q' * 2 ^ s * 2 ^ j + 2 ^ 10 := by
      have h1 : b0 * 2 ^ j ≤ (q' * 2 ^ s + 2 ^ (s - 1)) * 2 ^ j := Nat.mul_le_mul_right _ hq3
      rw [Nat.add_mul] at h1
      omega
    have hbig : 2 ^ 53 ≤ b0 * 2 ^ j := by
      have h1 : 2 ^ 53 ≤ 2 ^ (bitLen b0 - 1) := Nat.pow_le_pow_right (by decide) (by omega)
      have h2 : b0 * 1 ≤ b0 * 2 ^ j := Nat.mul_le_mul_left _ hJ
      omega
    refine ⟨b', j + s + j', rfl, hodd', hb'53, by omega, fun h => by omega, fun _ => ?_, ?_, ?_⟩
    · rw [hV]; exact hge
    · rw [hV]; exact hup
    · rw [hV]; exact hdn

/-! ## Lemmas on size parsing -/

/-- The upper-case form of a letter is a letter. -/
theorem isAlpha_toUpper (c : Char) (h : c.isAlpha = true) : c.toUpper.isAlpha = true := by
  have hc : c = Char.ofNat c.toNat := (Char.ofNat_toNat c).symm
  have hb : (65 ≤ c.toNat ∧ c.toNat ≤ 90) ∨ (97 ≤ c.toNat ∧ c.toNat ≤ 122) := by
    simp only [Char.isAlpha, Char.isUpper, Char.isLower, Bool.or_eq_true, Bool.and_eq_true,
      decide_eq_true_eq] at h
    rcases h with h | h
    · left; exact ⟨h.1, h.2⟩
    · right; exact ⟨h.1, h.2⟩
  generalize c.toNat = n at hc hb
  subst hc
  rcases hb with ⟨h1, h2⟩ | ⟨h1, h2⟩ <;> interval_cases n <;> decide

/-- `toUpper` leaves what is not a letter unchanged. -/
theorem toUpper_of_not_isAlpha (c : Char) (h : c.isAlpha = false) : c.toUpper = c := by
  have hl : ¬ (97 ≤ c.toNat ∧ c.toNat ≤ 122) := by
    intro hc
    have : c.isAlpha = true := by
      simp only [Char.isAlpha, Char.isUpper, Char.isLower, Bool.or_eq_true, Bool.and_eq_true,
        decide_eq_true_eq]
      right
      exact ⟨hc.1, hc.2⟩
    rw [h] at this
    exact absurd this (by simp)
  unfold Char.toUpper
  simp only [ge_iff_le]
  rw [if_neg hl]

/-- A suffix letter, upper-cased, is a letter and selects the multiplier `1024^k` of the `switch`. -/
theorem suffixPower_spec (s : Char) (k : Nat) (h : suffixPower s = some k) :
    s.toUpper.isAlpha = true ∧ suffixMultiplier s.toUpper = some (pow1024 k) := by
  unfold suffixPower at h
  split_ifs at h with h1 h2 h3 h4
  · cases h; rcases h1 with rfl | rfl <;> exact ⟨by decide, by decide⟩
  · cases h; rcases h2 with rfl | rfl <;> exact ⟨by decide, by decide⟩
  · cases h; rcases h3 with rfl | rfl <;> exact ⟨by decide, by decide⟩
  · cases h; rcases h4 with rfl | rfl <;> exact ⟨by decide, by decide⟩

/-- The tail of `parseSizeArgument` on a number part read as the finite double `m * 2^e`: the result is the floor of `m * 2^e * 1024^k` when that is below `2^64`. -/
theorem convertSize_exact (lib : StdLib) (d : String) (m : Nat) (e : Int) (k : Nat)
    (hstod : lib.stod d = Res.ok (Dbl.fin m e))
    (hdbl : (m = 0 ∧ e = 0) ∨ (m % 2 = 1 ∧ m < 2 ^ 53 ∧ -1074 ≤ e))
    (hr : (m : ℚ) * (2 : ℚ) ^ e * 1024 ^ k < 2 ^ 64) :
    convertSize lib d (pow1024 k) = Res.ok ⌊(m : ℚ) * (2 : ℚ) ^ e * 1024 ^ k⌋.toNat := by
  have hval : (m : ℚ) * (2 : ℚ) ^ e * 1024 ^ k = (m : ℚ) * (2 : ℚ) ^ (e + 10 * k) := by
    rw [zpow_add₀ (by norm_num), mul_assoc]
    congr 2
    rw [show (10 * (k : Int)) = ((10 * k : Nat) : Int) by push_cast; rfl, zpow_natCast, pow_mul]
    norm_num
  unfold convertSize
  rw [hstod]
  simp only
  rcases hdbl with ⟨rfl, rfl⟩ | ⟨hodd, h53, hlo⟩
  · have : fmul (Dbl.fin ((0 : Nat) : Int) 0) (pow1024 k) = Dbl.fin ((0 : Nat) : Int) 0 := by
      simp [fmul, pow1024, roundDyadic]
    rw [this, toSizeT_floor 0 0 (by norm_num)]
    simp
  · rw [hval] at hr ⊢
    have hb : (bitLen m : Int) + (e + 10 * k) ≤ 64 :=
      bitLen_add_le m (e + 10 * k) 64 (by omega) (by exact_mod_cast hr)
    rw [fmul_pow1024 m e k hodd h53 (by omega) (by omega), toSizeT_floor m _ hr]

/-! ## Lemmas on the measurement routines -/

/-- A timing loop that ends normally has appended the samples of its iterations, in order. -/
theorem timedLoop_eq_ok (e w : String) (reply : Nat → TransferReply) :
    ∀ (left i : Nat) (ds out : List Dbl), timedLoop e w reply left i ds = Except.ok out →
      out = ds ++ (List.range' i left).map (fun j => sample (reply j)) := by
  intro left
  induction left with
  | zero =>
    intro i ds out h
    simp only [timedLoop, Except.ok.injEq] at h
    simp [h]
  | succ n ih =>
    intro i ds out h
    unfold timedLoop at h
    split_ifs at h with h1 h2
    have := ih (i + 1) _ _ h
    rw [this, List.range'_succ]
    simp

/-- A timing loop whose enqueue and wait calls all succeed ends normally. -/
theorem timedLoop_ok (e w : String) (reply : Nat → TransferReply) :
    ∀ (left i : Nat) (ds : List Dbl),
      (∀ j, i ≤ j → j < i + left → (reply j).enqueueErr = 0 ∧ (reply j).waitErr = 0) →
      timedLoop e w reply left i ds
        = Except.ok (ds ++ (List.range' i left).map (fun j => sample (reply j))) := by
  intro left
  induction left with
  | zero => intro i ds _; simp [timedLoop]
  | succ n ih =>
    intro i ds h
    have hi := h i (le_refl i) (by omega)
    unfold timedLoop
    rw [if_neg (by simp [hi.1]), if_neg (by simp [hi.2])]
    rw [ih (i + 1) _ (fun j hj1 hj2 => h j (by omega) (by omega)), List.range'_succ]
    simp

/-- A timing loop that is left by `CHECK_CL` carries the `OpenCL Error` message. -/
theorem timedLoop_error (e w : String) (reply : Nat → TransferReply) :
    ∀ (left i : Nat) (ds : List Dbl) (ev : Event),
      timedLoop e w reply left i ds = Except.error ev → ∃ msg code, ev = Event.clError msg code := by
  intro left
  induction left with
  | zero => intro i ds ev h; simp [timedLoop] at h
  | succ n ih =>
    intro i ds ev h
    unfold timedLoop at h
    split_ifs at h with h1 h2
    · exact ⟨_, _, (Except.error.inj h).symm⟩
    · exact ⟨_, _, (Except.error.inj h).symm⟩
    · exact ih _ _ _ h

/-- There is one sample per iteration. -/
theorem samplesOf_length (reply : Nat → TransferReply) (n : Nat) :
    (samplesOf reply n).length = n := by
  simp [samplesOf]

/-- A routine that returns has printed the report of the samples of its `iterations` transfers. -/
theorem measure_done (label e w : String) (reply : Nat → TransferReply) (size : Nat) (N : Int)
    (t : List Event) (h : measureWithEvents label e w reply size N = Pass.done t) :
    t = [reportLine label size N (samplesOf reply N.toNat)] := by
  unfold measureWithEvents at h
  split at h
  · exact absurd h (by simp)
  · rename_i ds hds
    have := timedLoop_eq_ok e w reply _ _ _ _ hds
    simp only [Pass.done.injEq] at h
    rw [← h, this, samplesOf, List.range_eq_range']
    simp

/-- A routine whose transfers all succeed returns, with the report of their samples. -/
theorem measure_ok (label e w : String) (reply : Nat → TransferReply) (size : Nat) (N : Int)
    (hok : ∀ i : Nat, (i : Int) < N → (reply i).enqueueErr = 0 ∧ (reply i).waitErr = 0) :
    measureWithEvents label e w reply size N
      = Pass.done [reportLine label size N (samplesOf reply N.toNat)] := by
  unfold measureWithEvents
  rw [timedLoop_ok e w reply N.toNat 0 [] (fun j _ hj => hok j (by omega))]
  simp [samplesOf, List.range_eq_range']

/-- A measurement routine never writes the validation message of `main`. -/
theorem measure_no_err (label e w : String) (reply : Nat → TransferReply) (size : Nat) (N : Int)
    (text : String) :
    Event.err text ∉ passTrace (measureWithEvents label e w reply size N) := by
  unfold measureWithEvents
  split
  · rename_i ev hev
    obtain ⟨msg, code, rfl⟩ := timedLoop_error e w reply _ _ _ _ hev
    simp [passTrace]
  · simp [passTrace, reportLine]

/-- For an `int` iteration count that is not negative, the byte count is `N * size` modulo `2^64`. -/
theorem bytesMoved_eq (size : Nat) (N : Int) (h0 : 0 ≤ N) (h1 : N < 2 ^ 31) :
    bytesMoved size N = (N.toNat * size) % 2 ^ 64 := by
  unfold bytesMoved
  have : (N % 2 ^ 64).toNat = N.toNat := by
    rw [Int.emod_eq_of_lt h0 (by omega)]
  rw [this, Nat.mul_mod, Nat.mod_mod, ← Nat.mul_mod]

/-- The literal `1000.0`. -/
theorem thousand_eq : ofDecimal false 1000 0 = ofNat 1000 := by decide

/-- The report line, spelled out. -/
theorem reportLine_eq (label : String) (size : Nat) (N : Int) (h0 : 0 ≤ N) (h1 : N < 2 ^ 31)
    (samples : List Dbl) :
    reportLine label size N samples
      = Event.result label (formatBytes (aggregateBandwidth size N samples))
          (samples.foldl fadd zero) (fdiv (samples.foldl fadd zero) (ofInt N))
          (statistics dblArith size N samples).stddev := by
  simp only [reportLine, statistics, dblArith, aggregateBandwidth, bytesMoved_eq size N h0 h1,
    thousand_eq]

/-- Over the rationals `std::accumulate` is the sum. -/
theorem foldl_add_eq_sum (l : List ℚ) (a : ℚ) :
    l.foldl (fun acc val => acc + val) a = a + l.sum := by
  induction l generalizing a with
  | nil => simp
  | cons x xs ih => simp [List.foldl_cons, ih, add_assoc]

/-- Over the rationals the second `std::accumulate` is the sum of the squared deviations. -/
theorem foldl_sq_eq_sum (l : List ℚ) (m a : ℚ) :
    l.foldl (fun acc val => acc + (val - m) * (val - m)) a
      = a + (l.map (fun x => (x - m) ^ 2)).sum := by
  induction l generalizing a with
  | nil => simp
  | cons x xs ih => simp [List.foldl_cons, ih, add_assoc, sq]

/-! ## Lemmas on `main` -/

/-- The argument loop on the last argument. -/
theorem parseArgs_one (lib : StdLib) (prog arg : String) (cfg : Config) :
    parseArgs lib prog [arg] cfg
      = if arg = "--help" then Parsed.stop ⟨[Event.usage prog], Status.exit 0⟩
        else if arg = "--list-devices" then Parsed.run { cfg with listOnly := true }
        else unknownOption prog arg := by
  rw [parseArgs]
  try rfl

/-- The argument loop on an argument that has a successor. -/
theorem parseArgs_two (lib : StdLib) (prog arg value : String) (rest : List String)
    (cfg : Config) :
    parseArgs lib prog (arg :: value :: rest) cfg
      = if arg = "--help" then Parsed.stop ⟨[Event.usage prog], Status.exit 0⟩
        else if arg = "--list-devices" then
          parseArgs lib prog (value :: rest) { cfg with listOnly := true }
        else if arg = "--device" then
          match lib.stoi value with
          | Res.ok n => parseArgs lib prog rest { cfg with selectedDevice := n }
          | Res.throw e => Parsed.stop ⟨[], Status.terminate e⟩
          | Res.undefined => Parsed.stop ⟨[], Status.undefined⟩
        else if arg = "--size" then
          match parseSizeArgument lib value with
          | Res.ok n => parseArgs lib prog rest { cfg with size := n }
          | Res.throw e => Parsed.stop ⟨[], Status.terminate e⟩
          | Res.undefined => Parsed.stop ⟨[], Status.undefined⟩
        else if arg = "--iter" then
          match lib.stoi value with
          | Res.ok n => parseArgs lib prog rest { cfg with iterations := n }
          | Res.throw e => Parsed.stop ⟨[], Status.terminate e⟩
          | Res.undefined => Parsed.stop ⟨[], Status.undefined⟩
        else unknownOption prog arg := by
  rw [parseArgs]
  try rfl

/-- Arguments that are accepted are consumed: the loop goes on with what follows them. -/
theorem parseArgs_append (lib : StdLib) (prog : String) (rest : List String) :
    ∀ (n : Nat) (pre : List String) (cfg cfg' : Config), pre.length ≤ n →
      parseArgs lib prog pre cfg = Parsed.run cfg' →
      parseArgs lib prog (pre ++ rest) cfg = parseArgs lib prog rest cfg' := by
  intro n
  induction n with
  | zero =>
    intro pre cfg cfg' hlen h
    have : pre = [] := List.length_eq_zero.mp (by omega)
    subst this
    simp only [parseArgs, Parsed.run.injEq] at h
    simp [h]
  | succ n ih =>
    intro pre cfg cfg' hlen h
    match pre, hlen, h with
    | [], _, h =>
      simp only [parseArgs, Parsed.run.injEq] at h
      simp [h]
    | [arg], _, h =>
      rw [parseArgs_one] at h
      split_ifs at h with h1 h2
      · simp only [Parsed.run.injEq] at h
        cases rest with
        | nil => simp [parseArgs_one, h1, h2, h, parseArgs]
        | cons r rs =>
          simp only [List.singleton_append]
          rw [parseArgs_two, if_neg h1, if_pos h2, h]
      · exact absurd h (by simp [unknownOption])
    | arg :: value :: tl, hlen, h =>
      simp only [List.cons_append]
      rw [parseArgs_two] at h ⊢
      simp only [List.length_cons] at hlen
      split_ifs at h ⊢ with h1 h2 h3 h4 h5
      · exact ih (value :: tl) _ _ (by simp only [List.length_cons]; omega) h
      · cases hv : lib.stoi value with
        | ok v => rw [hv] at h; exact ih tl _ _ (by omega) h
        | throw e => rw [hv] at h; exact absurd h (by simp)
        | undefined => rw [hv] at h; exact absurd h (by simp)
      · cases hv : parseSizeArgument lib value with
        | ok v => rw [hv] at h; exact ih tl _ _ (by omega) h
        | throw e => rw [hv] at h; exact absurd h (by simp)
        | undefined => rw [hv] at h; exact absurd h (by simp)
      · cases hv : lib.stoi value with
        | ok v => rw [hv] at h; exact ih tl _ _ (by omega) h
        | throw e => rw [hv] at h; exact absurd h (by simp)
        | undefined => rw [hv] at h; exact absurd h (by simp)
      · exact absurd h (by simp [unknownOption])

/-- An argument that is no known flag, or a value flag in last position, ends the loop with the usage error. -/
theorem parseArgs_bad (lib : StdLib) (prog bad : String) (rest : List String) (cfg : Config)
    (hhelp : bad ≠ "--help") (hlist : bad ≠ "--list-devices")
    (hval : bad = "--device" ∨ bad = "--size" ∨ bad = "--iter" → rest = []) :
    parseArgs lib prog (bad :: rest) cfg = unknownOption prog bad := by
  cases rest with
  | nil => rw [parseArgs_one, if_neg hhelp, if_neg hlist]
  | cons r rs =>
    have h1 : bad ≠ "--device" := fun h => by simpa using hval (Or.inl h)
    have h2 : bad ≠ "--size" := fun h => by simpa using hval (Or.inr (Or.inl h))
    have h3 : bad ≠ "--iter" := fun h => by simpa using hval (Or.inr (Or.inr h))
    rw [parseArgs_two, if_neg hhelp, if_neg hlist, if_neg h1, if_neg h2, if_neg h3]

/-- An `int` index that is negative or at least the device count is rejected by the comparison in `size_t`. -/
theorem deviceIndexRejected_of_out_of_range (i : Int) (D : Nat) (hlo : -(2 : Int) ^ 31 ≤ i)
    (hhi : i < 2 ^ 31) (hD : D ≤ 2 ^ 63) (hout : i < 0 ∨ (D : Int) ≤ i) :
    deviceIndexRejected i D = true := by
  unfold deviceIndexRejected
  rw [decide_eq_true_eq]
  rcases hout with h | h
  · have : i % 2 ^ 64 = i + 2 ^ 64 := by
      rw [← Int.add_emod_self, Int.emod_eq_of_lt (by omega) (by omega)]
    rw [this]
    omega
  · rw [Int.emod_eq_of_lt (by omega) (by omega)]
    omega

/-- The three passes never write the validation message of `main`. -/
theorem runPasses_no_err (env : Env) (cfg : Config) (text : String) :
    Event.err text ∉ (runPasses env cfg).trace := by
  have h1 := measure_no_err "Host to Device:   " "enqueue write" "wait write" env.write
    cfg.size cfg.iterations text
  have h2 := measure_no_err "Device to Host:   " "enqueue read" "wait read" env.read
    cfg.size cfg.iterations text
  have h3 := measure_no_err "Device to Device: " "copy buffer" "wait" env.copy
    cfg.size cfg.iterations text
  unfold runPasses measureWriteWithEvents measureReadWithEvents measureDeviceToDeviceWithEvents
  cases hw : measureWithEvents "Host to Device:   " "enqueue write" "wait write" env.write
    cfg.size cfg.iterations with
  | exited t => rw [hw] at h1; simpa [passTrace] using h1
  | done t1 =>
    rw [hw] at h1
    cases hr : measureWithEvents "Device to Host:   " "enqueue read" "wait read" env.read
      cfg.size cfg.iterations with
    | exited t => rw [hr] at h2; simp only [passTrace] at h1 h2; simp [h1, h2]
    | done t2 =>
      rw [hr] at h2
      cases hc : measureWithEvents "Device to Device: " "copy buffer" "wait" env.copy
        cfg.size cfg.iterations with
      | exited t => rw [hc] at h3; simp only [passTrace] at h1 h2 h3; simp [h1, h2, h3]
      | done t3 => rw [hc] at h3; simp only [passTrace] at h1 h2 h3; simp [h1, h2, h3]

/-- `main` called with `--size value` alone runs the default configuration with that size. -/
theorem main_size_only (lib : StdLib) (env : Env) (prog value : String) (n : Nat)
    (hparse : parseSizeArgument lib value = Res.ok n) :
    main lib env [prog, "--size", value] = runConfig env { defaultConfig with size := n } := by
  unfold main
  simp only [List.headD_cons, List.drop_succ_cons, List.drop_zero]
  rw [parseArgs_two, if_neg (by decide), if_neg (by decide), if_neg (by decide),
    if_pos rfl, hparse]
  simp only [parseArgs]

/-- With platforms enumerated, a device present and index 0, `main` reaches the benchmark. -/
theorem runConfig_first_device (env : Env) (cfg : Config)
    (hcount : env.platformCountErr = 0) (hplat : env.platformListErr = 0)
    (hlist : cfg.listOnly = false) (hsel : cfg.selectedDevice = 0)
    (hdev : allDevices env ≠ []) :
    ∃ device, runConfig env cfg = benchmark env cfg device := by
  obtain ⟨d, ds, hd⟩ := List.exists_cons_of_ne_nil hdev
  refine ⟨d, ?_⟩
  simp [runConfig, hcount, hplat, hlist, hsel, deviceIndexRejected, hd]

/-! ## The claims -/

/-- C1, counterexample: for size 1048576, `N = 4` and four samples of 1.0 ms the total
is 4.0 ms and the bandwidth computed is 1 048 576 000 B/s, which `formatBytes` renders as
"1000.00 MB/s"; it is not 1 048 576 000 000 B/s and the text is not "976.56 GB/s".  For size
`2^62` and `N = 4` the byte count `N * size` wraps to `0` in `size_t` and the bandwidth is `0`. -/
theorem spec_witness_bandwidth_refuted :
    (statistics dblArith 1048576 4 [Dbl.fin 1 0, Dbl.fin 1 0, Dbl.fin 1 0, Dbl.fin 1 0]).total
      = ofNat 4 ∧
    (statistics dblArith 1048576 4 [Dbl.fin 1 0, Dbl.fin 1 0, Dbl.fin 1 0, Dbl.fin 1 0]).bandwidth
      = ofNat 1048576000 ∧
    ofNat 1048576000 ≠ ofNat 1048576000000 ∧
    formatBytes (statistics dblArith 1048576 4
      [Dbl.fin 1 0, Dbl.fin 1 0, Dbl.fin 1 0, Dbl.fin 1 0]).bandwidth = "1000.00 MB/s" ∧
    "1000.00 MB/s" ≠ "976.56 GB/s" ∧
    (statistics dblArith (2 ^ 62) 4 [Dbl.fin 1 0, Dbl.fin 1 0, Dbl.fin 1 0, Dbl.fin 1 0]).bandwidth
      = zero := by
  decide

/-- C1, amended: when the `N ≥ 1` transfers of a pass all succeed, each of
`measureWriteWithEvents`, `measureReadWithEvents` and `measureDeviceToDeviceWithEvents`
reports `formatBytes` of `((N * size) mod 2^64) / (total / 1000)` in `double` arithmetic, where
`total` is the left-to-right sum of the `N` samples: aggregate bytes over aggregate seconds,
not a mean of per-iteration bandwidths.  Read in exact arithmetic and without wrap-around the
same text computes `N * size / (sum / 1000)`. -/
theorem bandwidth_is_aggregate (reply : Nat → TransferReply) (size : Nat) (N : Int)
    (hN : 1 ≤ N) (hint : N < 2 ^ 31)
    (hok : ∀ i : Nat, (i : Int) < N → (reply i).enqueueErr = 0 ∧ (reply i).waitErr = 0) :
    (∀ p ∈ [(measureWriteWithEvents reply size N, "Host to Device:   "),
        (measureReadWithEvents reply size N, "Device to Host:   "),
        (measureDeviceToDeviceWithEvents reply size N, "Device to Device: ")],
      p.1 = Pass.done [Event.result p.2
        (formatBytes (aggregateBandwidth size N (samplesOf reply N.toNat)))
        ((samplesOf reply N.toNat).foldl fadd zero)
        (fdiv ((samplesOf reply N.toNat).foldl fadd zero) (ofInt N))
        (statistics dblArith size N (samplesOf reply N.toNat)).stddev]) ∧
    (statistics dblArith size N (samplesOf reply N.toNat)).bandwidth
      = aggregateBandwidth size N (samplesOf reply N.toNat) ∧
    ∀ (sqrt : ℚ → ℚ) (durations : List ℚ), N.toNat * size < 2 ^ 64 →
      (statistics (ratArith sqrt) size N durations).bandwidth
        = ((N : ℚ) * (size : ℚ)) / (durations.sum / 1000) := by
  refine ⟨?_, ?_, ?_⟩
  · intro p hp
    simp only [List.mem_cons, List.mem_singleton, List.not_mem_nil, or_false] at hp
    rcases hp with rfl | rfl | rfl <;>
      simp only [measureWriteWithEvents, measureReadWithEvents, measureDeviceToDeviceWithEvents,
        measure_ok _ _ _ reply size N hok, reportLine_eq _ size N (by omega) hint]
  · simp only [statistics, dblArith, aggregateBandwidth, bytesMoved_eq size N (by omega) hint,
      thousand_eq]
  · intro sqrt durations hlt
    simp only [statistics, ratArith, bytesMoved_eq size N (by omega) hint, foldl_add_eq_sum,
      zero_add, Nat.mod_eq_of_lt hlt]
    have : ((N.toNat : Nat) : ℚ) = (N : ℚ) := by
      have h : ((N.toNat : Int)) = N := Int.toNat_of_nonneg (by omega)
      exact_mod_cast h
    push_cast
    rw [this]

/-- C1, the amended statement at size 1048576, `N = 4`, four samples of 1.0 ms: the
write pass reports "1000.00 MB/s", a total of 4.0 ms, a mean of 1.0 ms and a deviation of 0. -/
theorem bandwidth_is_aggregate_witness :
    measureWriteWithEvents steadyReply 1048576 4
      = Pass.done [Event.result "Host to Device:   " "1000.00 MB/s" (Dbl.fin 1 2) (Dbl.fin 1 0)
          (Dbl.fin 0 0)] :=
  ((bandwidth_is_aggregate steadyReply 1048576 4 (by decide) (by decide)
    (fun _ _ => ⟨rfl, rfl⟩)).1 _ (List.mem_cons_self _ _)).trans (by decide)

/-- C2: for `N ≥ 1` the statistics block computes, in `double` arithmetic, `total` as
the left-to-right sum of the samples, `mean = total / N` and
`stddev = sqrt (sum of (sample - mean)^2 / N)`, the divisor being `N` and not `N - 1`; read
over the rationals for a sequence of `N` samples the same text gives exactly the sum, the
arithmetic average and the square root of the population variance; and a routine that
returns has printed these three numbers for its `N` samples. -/
theorem statistics_are_population (size : Nat) (N : Int) (hN : 1 ≤ N) :
    (∀ durations : List Dbl,
      (statistics dblArith size N durations).total = durations.foldl fadd zero ∧
      (statistics dblArith size N durations).avg
        = fdiv (durations.foldl fadd zero) (ofInt N) ∧
      (statistics dblArith size N durations).stddev
        = fsqrt (fdiv (durations.foldl
            (fun acc val => fadd acc
              (fmul (fsub val (fdiv (durations.foldl fadd zero) (ofInt N)))
                (fsub val (fdiv (durations.foldl fadd zero) (ofInt N))))) zero) (ofInt N))) ∧
    (∀ (sqrt : ℚ → ℚ) (durations : List ℚ), (durations.length : Int) = N →
      (statistics (ratArith sqrt) size N durations).total = durations.sum ∧
      (statistics (ratArith sqrt) size N durations).avg = durations.sum / durations.length ∧
      (statistics (ratArith sqrt) size N durations).stddev
        = sqrt ((durations.map
            (fun x => (x - durations.sum / durations.length) ^ 2)).sum / durations.length)) ∧
    (∀ (reply : Nat → TransferReply) (t : List Event),
      (measureWriteWithEvents reply size N = Pass.done t ∨
        measureReadWithEvents reply size N = Pass.done t ∨
        measureDeviceToDeviceWithEvents reply size N = Pass.done t) →
      ((samplesOf reply N.toNat).length : Int) = N ∧
      ∃ label bandwidth, t = [Event.result label bandwidth
        (statistics dblArith size N (samplesOf reply N.toNat)).total
        (statistics dblArith size N (samplesOf reply N.toNat)).avg
        (statistics dblArith size N (samplesOf reply N.toNat)).stddev]) := by
  refine ⟨fun durations => ⟨rfl, rfl, rfl⟩, ?_, ?_⟩
  · intro sqrt durations hlen
    have hq : (N : ℚ) = (durations.length : ℚ) := by exact_mod_cast hlen.symm
    simp only [statistics, ratArith, foldl_add_eq_sum, foldl_sq_eq_sum, zero_add, hq, and_self]
  · intro reply t h
    refine ⟨by rw [samplesOf_length]; omega, ?_⟩
    rcases h with h | h | h
    · exact ⟨_, _, measure_done _ _ _ reply size N t h⟩
    · exact ⟨_, _, measure_done _ _ _ reply size N t h⟩
    · exact ⟨_, _, measure_done _ _ _ reply size N t h⟩

/-- C2 at the eight samples 2, 4, 4, 4, 5, 5, 7, 9 ms: the total is 40, the mean 5 and the
deviation 2, the population value (the divisor `N - 1` would give about 2.14). -/
theorem statistics_are_population_witness :
    (statistics dblArith 1048576 8 ([2, 4, 4, 4, 5, 5, 7, 9].map ofNat)).total = ofNat 40 ∧
    (statistics dblArith 1048576 8 ([2, 4, 4, 4, 5, 5, 7, 9].map ofNat)).avg = ofNat 5 ∧
    (statistics dblArith 1048576 8 ([2, 4, 4, 4, 5, 5, 7, 9].map ofNat)).stddev = ofNat 2 :=
  ⟨((statistics_are_population 1048576 8 (by decide)).1 _).1.trans (by decide),
   ((statistics_are_population 1048576 8 (by decide)).1 _).2.1.trans (by decide),
   ((statistics_are_population 1048576 8 (by decide)).1 _).2.2.trans (by decide)⟩

/-- C3, counterexample: "9007199254740993" (`2^53 + 1`) is read as the double `2^53` and
9007199254740992 is returned; "0.99999999999999999999" is read as 1.0 and 1 is returned, not
the truncation 0 of its value; and the value of "18446744073709551616" (`2^64`) fits no
`size_t`, the cast being undefined there. -/
theorem parseSizeArgument_rounds_and_overflows :
    parseSizeArgument stdlib "9007199254740993" = Res.ok 9007199254740992 ∧
    parseSizeArgument stdlib "0.99999999999999999999" = Res.ok 1 ∧
    parseSizeArgument stdlib "18446744073709551616" = Res.undefined := by
  decide

/-- C3, amended: let `d` be a non-empty string that does not end in a letter and that
`std::stod` reads as the non-negative finite double `x = m * 2^e` (the double nearest to the
decimal value of `d`, equal to it whenever that value is a double, as for 512, 1.25 and 100).
Then `parseSizeArgument(d)` returns the truncation of `x` when `x < 2^64`, and
`parseSizeArgument` of `d` followed by one of `K M G T`, in either case, returns the
truncation of `x * 1024^k`, `k = 1, 2, 3, 4`, when that product is below `2^64`. -/
theorem parseSizeArgument_scales (lib : StdLib) (d : String) (c : Char) (m : Nat) (e : Int)
    (hlast : d.data.getLast? = some c) (hnum : c.isAlpha = false)
    (hstod : lib.stod d = Res.ok (Dbl.fin m e))
    (hdbl : (m = 0 ∧ e = 0) ∨ (m % 2 = 1 ∧ m < 2 ^ 53 ∧ -1074 ≤ e)) :
    ((m : ℚ) * (2 : ℚ) ^ e < 2 ^ 64 →
      parseSizeArgument lib d = Res.ok ⌊(m : ℚ) * (2 : ℚ) ^ e⌋.toNat) ∧
    ∀ (s : Char) (k : Nat), suffixPower s = some k →
      (m : ℚ) * (2 : ℚ) ^ e * 1024 ^ k < 2 ^ 64 →
      parseSizeArgument lib (d.push s) = Res.ok ⌊(m : ℚ) * (2 : ℚ) ^ e * 1024 ^ k⌋.toNat := by
  constructor
  · intro hr
    have := convertSize_exact lib d m e 0 hstod hdbl (by simpa using hr)
    unfold parseSizeArgument
    rw [hlast]
    simp only [toUpper_of_not_isAlpha c hnum, hnum, Bool.false_eq_true, if_false]
    simpa using this
  · intro s k hs hr
    obtain ⟨ha, hm⟩ := suffixPower_spec s k hs
    have hd : (d.push s).data = d.data ++ [s] := by
      cases d; rfl
    unfold parseSizeArgument
    have hl : (d.data ++ [s]).getLast? = some s := by simp
    rw [hd, hl]
    simp only [ha, if_true, hm, List.dropLast_concat]
    exact convertSize_exact lib d m e k hstod hdbl hr

/-- C3, the amended statement on the inputs of the specification: "512M" gives
`512 * 1024 * 1024`, "1.25G" gives 1342177280 and "100" gives 100. -/
theorem parseSizeArgument_scales_witness :
    parseSizeArgument stdlib "512M" = Res.ok (512 * 1024 * 1024) ∧
    parseSizeArgument stdlib "1.25G" = Res.ok 1342177280 ∧
    parseSizeArgument stdlib "100" = Res.ok 100 :=
  ⟨((parseSizeArgument_scales stdlib "512" '2' 1 9 (by decide) (by decide) (by decide)
      (by decide)).2 'M' 2 (by decide) (by norm_num)).trans (by norm_num; rfl),
   ((parseSizeArgument_scales stdlib "1.25" '5' 5 (-2) (by decide) (by decide) (by decide)
      (by decide)).2 'G' 3 (by decide) (by norm_num)).trans (by norm_num; rfl),
   ((parseSizeArgument_scales stdlib "100" '0' 25 2 (by decide) (by decide) (by decide)
      (by decide)).1 (by norm_num)).trans (by norm_num; rfl)⟩

/-- C4: for every non-empty size string whose last character is a letter other than
`K`, `M`, `G`, `T` in either case, `parseSizeArgument` throws the error
"Invalid size suffix (K/M/G/T)" and returns no size, whatever stands before the suffix and
whatever the library conversions do. -/
theorem parseSizeArgument_invalid_suffix (lib : StdLib) (input : String) (c : Char)
    (hlast : input.data.getLast? = some c) (halpha : c.isAlpha = true)
    (hK : c.toUpper ≠ 'K') (hM : c.toUpper ≠ 'M') (hG : c.toUpper ≠ 'G')
    (hT : c.toUpper ≠ 'T') :
    parseSizeArgument lib input
      = Res.throw (Exn.runtime_error "Invalid size suffix (K/M/G/T)") := by
  unfold parseSizeArgument
  rw [hlast]
  simp only [isAlpha_toUpper c halpha, if_true, suffixMultiplier, if_neg hK, if_neg hM,
    if_neg hG, if_neg hT]

/-- C4 on the input "5X". -/
theorem parseSizeArgument_invalid_suffix_witness :
    parseSizeArgument stdlib "5X"
      = Res.throw (Exn.runtime_error "Invalid size suffix (K/M/G/T)") :=
  parseSizeArgument_invalid_suffix stdlib "5X" 'X' (by decide) (by decide) (by decide)
    (by decide) (by decide) (by decide)

/-- C5: for every byte count `n` (a `size_t`), `formatSize(n)` is the decimal integer
`r / 100`, a point, the two decimal digits of `r mod 100` (tens, then units), a space and the
`i`-th unit of `B, KB, MB, GB, TB`, where `i` is the least index in `0..4` with
`n / 1024^i < 1024`, or `4` when there is none, and where `r` is the number of hundredths
nearest to `n / 1024^i`, the even one of two equally near, when `n < 2^53`; for the larger
`n`, which a `double` holds only approximately, `r / 100` is within `0.005 + 10^-8` of
`n / 1024^i`. -/
theorem formatSize_scales (n : Nat) (hn : n < 2 ^ 64) :
    ∃ i r : Nat, i ≤ 4 ∧ (∀ j < i, 1024 ^ (j + 1) ≤ n) ∧ (i < 4 → n < 1024 ^ (i + 1)) ∧
      formatSize n
        = Nat.repr (r / 100) ++ "." ++
            String.mk [Char.ofNat (48 + r % 100 / 10), Char.ofNat (48 + r % 10)] ++ " " ++
            ["B", "KB", "MB", "GB", "TB"].getD i "" ∧
      (n < 2 ^ 53 → |(r : ℚ) - 100 * (n : ℚ) / 1024 ^ i| ≤ 1 / 2 ∧
        (|(r : ℚ) - 100 * (n : ℚ) / 1024 ^ i| = 1 / 2 → r % 2 = 0)) ∧
      |(r : ℚ) - 100 * (n : ℚ) / 1024 ^ i| ≤ 1 / 2 + 1 / 10 ^ 6 := by
  by_cases h0 : n = 0
  · subst h0
    refine ⟨0, 0, by decide, by simp, by simp, by decide, ?_, ?_⟩ <;> norm_num
  · obtain ⟨b, t, hof, hodd, h53, ht, hex, hbig, hup, hdn⟩ := ofNat_spec n h0 hn
    obtain ⟨i, hi4, hloop, hall, hstop⟩ :=
      scaleLoop_spec b t hodd h53 ht 4 0 rfl (fun j hj => absurd hj (by omega))
    simp only [Nat.cast_zero, mul_zero, sub_zero] at hloop
    obtain ⟨r, hfix, hr, htie⟩ := fixed2_spec b ((t : Int) - 10 * (i : Int))
    have hp40 : ∀ k, k ≤ 4 → 1024 ^ k ≤ 2 ^ 40 := by
      intro k hk
      have : (1024 : Nat) ^ k ≤ 1024 ^ 4 := Nat.pow_le_pow_right (by decide) hk
      have h4 : (1024 : Nat) ^ 4 = 2 ^ 40 := by decide
      omega
    have h4053 : (2 : Nat) ^ 40 < 2 ^ 53 := by decide
    -- the value printed is `b * 2^t / 1024^i`
    have hval : (b : ℚ) * (2 : ℚ) ^ ((t : Int) - 10 * (i : Int))
        = ((b * 2 ^ t : Nat) : ℚ) / 1024 ^ i := by
      rw [zpow_sub₀ (by norm_num), zpow_natCast]
      rw [show (10 * (i : Int)) = ((10 * i : Nat) : Int) by push_cast; rfl, zpow_natCast, pow_mul]
      push_cast
      norm_num
      ring
    rw [hval] at hr htie
    have hpos : (0 : ℚ) < 1024 ^ i := by positivity
    refine ⟨i, r, hi4, ?_, ?_, ?_, ?_, ?_⟩
    · intro j hj
      by_cases hs : n < 2 ^ 53
      · rw [← hex hs]; exact hall j hj
      · have := hp40 (j + 1) (by omega); omega
    · intro hi
      by_cases hs : n < 2 ^ 53
      · rw [← hex hs]; exact hstop hi
      · have h1 := hstop hi
        have h2 := hbig (by omega)
        have := hp40 (i + 1) (by omega)
        omega
    · unfold formatSize
      simp only [hof, hloop, hfix, sizeUnits]
      rw [twoDigits_eq _ (Nat.mod_lt _ (by decide)),
        Nat.mod_mod_of_dvd r (by decide : 10 ∣ 100)]
    · intro hs
      rw [hex hs] at hr htie
      have e : 100 * (n : ℚ) / 1024 ^ i = 100 * ((n : ℚ) / 1024 ^ i) := by ring
      rw [e]; exact ⟨hr, htie⟩
    · by_cases hs : n < 2 ^ 53
      · rw [hex hs] at hr
        have e : 100 * (n : ℚ) / 1024 ^ i = 100 * ((n : ℚ) / 1024 ^ i) := by ring
        rw [e]
        have : (0 : ℚ) ≤ 1 / 10 ^ 6 := by norm_num
        linarith
      · have hi : i = 4 := by
          by_contra hc
          have h1 := hstop (by omega)
          have h2 := hbig (by omega)
          have := hp40 (i + 1) (by omega)
          omega
        subst hi
        have hupq : ((b * 2 ^ t : Nat) : ℚ) ≤ (n : ℚ) + 2 ^ 10 := by exact_mod_cast hup
        have hdnq : (n : ℚ) ≤ ((b * 2 ^ t : Nat) : ℚ) + 2 ^ 10 := by exact_mod_cast hdn
        rw [abs_le] at hr ⊢
        obtain ⟨hr1, hr2⟩ := hr
        generalize ((b * 2 ^ t : Nat) : ℚ) = V at hupq hdnq hr1 hr2
        norm_num at hupq hdnq hr1 hr2 ⊢
        constructor <;> linarith

/-- C5 on the inputs of the specification, 1023 gives "1023.00 B", 1024 gives "1.00 KB"
and 1073741824 gives "1.00 GB", and on inputs whose decimals are not zero: 1536 gives
"1.50 KB", 1152 (1.125 KB, half way) gives "1.12 KB", 1234567 gives "1.18 MB" and the largest
`size_t` gives "16777216.00 TB". -/
theorem formatSize_scales_witness :
    formatSize 1023 = "1023.00 B" ∧ formatSize 1024 = "1.00 KB" ∧
    formatSize 1073741824 = "1.00 GB" ∧ formatSize 1536 = "1.50 KB" ∧
    formatSize 1152 = "1.12 KB" ∧ formatSize 1234567 = "1.18 MB" ∧
    formatSize (2 ^ 64 - 1) = "16777216.00 TB" ∧
    ∃ i r : Nat, i ≤ 4 ∧ (∀ j < i, 1024 ^ (j + 1) ≤ 1536) ∧ (i < 4 → 1536 < 1024 ^ (i + 1)) ∧
      formatSize 1536
        = Nat.repr (r / 100) ++ "." ++
            String.mk [Char.ofNat (48 + r % 100 / 10), Char.ofNat (48 + r % 10)] ++ " " ++
            ["B", "KB", "MB", "GB", "TB"].getD i "" ∧
      ((1536 : Nat) < 2 ^ 53 → |(r : ℚ) - 100 * ((1536 : Nat) : ℚ) / 1024 ^ i| ≤ 1 / 2 ∧
        (|(r : ℚ) - 100 * ((1536 : Nat) : ℚ) / 1024 ^ i| = 1 / 2 → r % 2 = 0)) ∧
      |(r : ℚ) - 100 * ((1536 : Nat) : ℚ) / 1024 ^ i| ≤ 1 / 2 + 1 / 10 ^ 6 :=
  ⟨by decide, by decide, by decide, by decide, by decide, by decide, by decide,
    formatSize_scales 1536 (by decide)⟩

/-- C6, counterexample: with one device enumerated, `--list-devices --device 7` selects
the index 7, prints the device list and exits with status 0; no validation error is
reported. -/
theorem list_devices_skips_index_check :
    main stdlib steadyEnv ["prog", "--list-devices", "--device", "7"]
      = ⟨[Event.out "Platform: Platform\n", Event.out "  [0] GPU\n"], Status.exit 0⟩ := by
  decide

/-- C6, amended: when the arguments are accepted, the platforms are enumerated and
`--list-devices` was not given, then for every device count `D` (a vector size, at most
`2^63`) and every `int` index `i` with `i < 0` or `i ≥ D`, `main` writes
"Invalid device index." and exits with status 1, and that is all it does: no context, queue
or buffer is created.  The negative case holds because `i` is compared as `i + 2^64`. -/
theorem device_index_validated (lib : StdLib) (env : Env) (argv : List String) (cfg : Config)
    (hparse : parseArgs lib (argv.headD "") (argv.drop 1) defaultConfig = Parsed.run cfg)
    (hcount : env.platformCountErr = 0) (hplat : env.platformListErr = 0)
    (hlist : cfg.listOnly = false)
    (hlo : -(2 : Int) ^ 31 ≤ cfg.selectedDevice) (hhi : cfg.selectedDevice < 2 ^ 31)
    (hD : (allDevices env).length ≤ 2 ^ 63)
    (hout : cfg.selectedDevice < 0 ∨ ((allDevices env).length : Int) ≤ cfg.selectedDevice) :
    main lib env argv = ⟨[Event.err "Invalid device index.\n"], Status.exit 1⟩ := by
  unfold main
  rw [hparse]
  simp only [runConfig, hcount, hplat, hlist, ne_eq, not_true_eq_false, if_false,
    Bool.false_eq_true, deviceIndexRejected_of_out_of_range _ _ hlo hhi hD hout, if_true]

/-- C6, the amended statement with one device, for the indices -1 and 1. -/
theorem device_index_validated_witness :
    main stdlib steadyEnv ["prog", "--device", "-1"]
      = ⟨[Event.err "Invalid device index.\n"], Status.exit 1⟩ ∧
    main stdlib steadyEnv ["prog", "--device", "1"]
      = ⟨[Event.err "Invalid device index.\n"], Status.exit 1⟩ :=
  ⟨device_index_validated stdlib steadyEnv ["prog", "--device", "-1"]
      ⟨1024 * 1024 * 1024, 1, -1, false⟩ (by decide) (by decide) (by decide) (by decide)
      (by decide) (by decide) (by decide) (by decide),
    device_index_validated stdlib steadyEnv ["prog", "--device", "1"]
      ⟨1024 * 1024 * 1024, 1, 1, false⟩ (by decide) (by decide) (by decide) (by decide)
      (by decide) (by decide) (by decide) (by decide)⟩

/-- C7, the code at the failing inputs.  First run: the start-time query of the first
write fails with -7; the result of `clGetEventProfilingInfo` is not tested, the three result
lines are reported and the status is 0.  Second run: the allocation of the second device
buffer fails with -4; the error code of `clCreateBuffer` is never tested, the write and read
passes report their lines, and only the copy ends the process, with status 1. -/
theorem unchecked_device_failures :
    main stdlib profilingFailsEnv ["prog"]
      = ⟨[Event.out "Using device: GPU\n",
          Event.out "Transfer size: 1073741824 bytes (1.00 GB), Iterations: 1\n",
          Event.createContext, Event.createCommandQueue, Event.createBuffer 1073741824,
          Event.mapBuffer 1073741824, Event.createBuffer 1073741824,
          Event.createBuffer 1073741824, Event.memset 1073741824,
          Event.out "Measuring OpenCL memory bandwidth (per-transfer timing)...\n",
          Event.result "Host to Device:   " "1000.00 GB/s" (Dbl.fin 1 0) (Dbl.fin 1 0) (Dbl.fin 0 0),
          Event.result "Device to Host:   " "1000.00 GB/s" (Dbl.fin 1 0) (Dbl.fin 1 0) (Dbl.fin 0 0),
          Event.result "Device to Device: " "1000.00 GB/s" (Dbl.fin 1 0) (Dbl.fin 1 0) (Dbl.fin 0 0),
          Event.release], Status.exit 0⟩ ∧
    main stdlib allocationFailsEnv ["prog"]
      = ⟨[Event.out "Using device: GPU\n",
          Event.out "Transfer size: 1073741824 bytes (1.00 GB), Iterations: 1\n",
          Event.createContext, Event.createCommandQueue, Event.createBuffer 1073741824,
          Event.mapBuffer 1073741824, Event.createBuffer 1073741824,
          Event.createBuffer 1073741824, Event.memset 1073741824,
          Event.out "Measuring OpenCL memory bandwidth (per-transfer timing)...\n",
          Event.result "Host to Device:   " "1000.00 GB/s" (Dbl.fin 1 0) (Dbl.fin 1 0) (Dbl.fin 0 0),
          Event.result "Device to Host:   " "1000.00 GB/s" (Dbl.fin 1 0) (Dbl.fin 1 0) (Dbl.fin 0 0),
          Event.clError "copy buffer" (-38)], Status.exit 1⟩ := by
  decide

/-- C8: for every transfer size and every iteration count `N ≥ 1`, the sample sequence of
a pass, one sample per iteration `i = 0 .. N-1` in order, has length exactly `N`; a timing
loop that ends normally hands exactly this sequence, of length `N`, to the statistics; each
of the three routines that returns has printed the report computed from it; and when no
transfer fails the loop and the three routines do return, whatever the size. -/
theorem pass_aggregates_iterations (reply : Nat → TransferReply) (size : Nat) (N : Int)
    (hN : 1 ≤ N) :
    ((samplesOf reply N.toNat).length : Int) = N ∧
    (∀ i : Nat, (i : Int) < N → (samplesOf reply N.toNat)[i]? = some (sample (reply i))) ∧
    (∀ (enqueueMsg waitMsg : String) (durations : List Dbl),
      timedLoop enqueueMsg waitMsg reply N.toNat 0 [] = Except.ok durations →
        durations = samplesOf reply N.toNat ∧ (durations.length : Int) = N) ∧
    (∀ t : List Event, measureWriteWithEvents reply size N = Pass.done t →
      t = [reportLine "Host to Device:   " size N (samplesOf reply N.toNat)]) ∧
    (∀ t : List Event, measureReadWithEvents reply size N = Pass.done t →
      t = [reportLine "Device to Host:   " size N (samplesOf reply N.toNat)]) ∧
    (∀ t : List Event, measureDeviceToDeviceWithEvents reply size N = Pass.done t →
      t = [reportLine "Device to Device: " size N (samplesOf reply N.toNat)]) ∧
    ((∀ i : Nat, (i : Int) < N → (reply i).enqueueErr = 0 ∧ (reply i).waitErr = 0) →
      (∀ enqueueMsg waitMsg : String,
        timedLoop enqueueMsg waitMsg reply N.toNat 0 [] = Except.ok (samplesOf reply N.toNat)) ∧
      measureWriteWithEvents reply size N
        = Pass.done [reportLine "Host to Device:   " size N (samplesOf reply N.toNat)] ∧
      measureReadWithEvents reply size N
        = Pass.done [reportLine "Device to Host:   " size N (samplesOf reply N.toNat)] ∧
      measureDeviceToDeviceWithEvents reply size N
        = Pass.done [reportLine "Device to Device: " size N (samplesOf reply N.toNat)]) := by
  have hlen : ((samplesOf reply N.toNat).length : Int) = N := by
    rw [samplesOf_length]; omega
  refine ⟨hlen, ?_, ?_, fun t h => measure_done _ _ _ reply size N t h,
    fun t h => measure_done _ _ _ reply size N t h,
    fun t h => measure_done _ _ _ reply size N t h, ?_⟩
  · intro i hi
    have : i < N.toNat := by omega
    simp [samplesOf, this]
  · intro e w ds h
    have := timedLoop_eq_ok e w reply _ _ _ _ h
    have hds : ds = samplesOf reply N.toNat := by
      rw [this, samplesOf, List.range_eq_range']; simp
    exact ⟨hds, by rw [hds]; exact hlen⟩
  · intro hok
    refine ⟨?_, measure_ok _ _ _ reply size N hok, measure_ok _ _ _ reply size N hok,
      measure_ok _ _ _ reply size N hok⟩
    intro e w
    rw [timedLoop_ok e w reply N.toNat 0 [] (fun j _ hj => hok j (by omega))]
    simp [samplesOf, List.range_eq_range']

/-- C8 for `--size 1M --iter 2`: the loop of each pass delivers exactly two samples (three
for `--iter 3`), each routine reports on exactly these, and the run prints the three reports
and exits with status 0. -/
theorem pass_aggregates_iterations_witness :
    timedLoop "enqueue write" "wait write" steadyReply 2 0 []
      = Except.ok [Dbl.fin 1 0, Dbl.fin 1 0] ∧
    timedLoop "copy buffer" "wait" steadyReply 3 0 []
      = Except.ok [Dbl.fin 1 0, Dbl.fin 1 0, Dbl.fin 1 0] ∧
    measureWriteWithEvents steadyReply 1048576 2
      = Pass.done [reportLine "Host to Device:   " 1048576 2 [Dbl.fin 1 0, Dbl.fin 1 0]] ∧
    measureReadWithEvents steadyReply 1048576 2
      = Pass.done [reportLine "Device to Host:   " 1048576 2 [Dbl.fin 1 0, Dbl.fin 1 0]] ∧
    measureDeviceToDeviceWithEvents steadyReply 1048576 2
      = Pass.done [reportLine "Device to Device: " 1048576 2 [Dbl.fin 1 0, Dbl.fin 1 0]] ∧
    (main stdlib steadyEnv ["prog", "--size", "1M", "--iter", "2"]).status = Status.exit 0 ∧
    reportLine "Host to Device:   " 1048576 2 [Dbl.fin 1 0, Dbl.fin 1 0]
      ∈ (main stdlib steadyEnv ["prog", "--size", "1M", "--iter", "2"]).trace ∧
    reportLine "Device to Host:   " 1048576 2 [Dbl.fin 1 0, Dbl.fin 1 0]
      ∈ (main stdlib steadyEnv ["prog", "--size", "1M", "--iter", "2"]).trace ∧
    reportLine "Device to Device: " 1048576 2 [Dbl.fin 1 0, Dbl.fin 1 0]
      ∈ (main stdlib steadyEnv ["prog", "--size", "1M", "--iter", "2"]).trace :=
  ⟨((pass_aggregates_iterations steadyReply 1048576 2 (by decide)).2.2.2.2.2.2
      (fun _ _ => ⟨rfl, rfl⟩)).1 _ _,
   ((pass_aggregates_iterations steadyReply 1048576 3 (by decide)).2.2.2.2.2.2
      (fun _ _ => ⟨rfl, rfl⟩)).1 _ _,
   ((pass_aggregates_iterations steadyReply 1048576 2 (by decide)).2.2.2.2.2.2
      (fun _ _ => ⟨rfl, rfl⟩)).2.1,
   ((pass_aggregates_iterations steadyReply 1048576 2 (by decide)).2.2.2.2.2.2
      (fun _ _ => ⟨rfl, rfl⟩)).2.2.1,
   ((pass_aggregates_iterations steadyReply 1048576 2 (by decide)).2.2.2.2.2.2
      (fun _ _ => ⟨rfl, rfl⟩)).2.2.2,
   by decide, by decide, by decide, by decide⟩

/-- C9, counterexample: "0" and "0K" are accepted as a size of 0 bytes and the cast of
"-5" is undefined; with `--size 0` and a device layer that refuses empty buffers, `main`
reports no validation error, creates the context and the command queue and requests the
three buffers. -/
theorem zero_size_reaches_allocation :
    parseSizeArgument stdlib "0" = Res.ok 0 ∧
    parseSizeArgument stdlib "0K" = Res.ok 0 ∧
    parseSizeArgument stdlib "-5" = Res.undefined ∧
    main stdlib zeroSizeEnv ["prog", "--size", "0"]
      = ⟨[Event.out "Using device: GPU\n",
          Event.out "Transfer size: 0 bytes (0.00 B), Iterations: 1\n",
          Event.createContext, Event.createCommandQueue, Event.createBuffer 0,
          Event.mapBuffer 0, Event.createBuffer 0, Event.createBuffer 0], Status.undefined⟩ := by
  decide

/-- C9, amended: the size is not validated.  For every `--size` value that
`parseSizeArgument` accepts, those denoting zero bytes included, and with the platforms
enumerated and a device present, `main` reports no validation error and creates the
context; when that succeeds it creates the command queue, and when that succeeds too it
requests the buffers of that size. -/
theorem size_is_not_validated (lib : StdLib) (env : Env) (prog value : String) (n : Nat)
    (hparse : parseSizeArgument lib value = Res.ok n)
    (hcount : env.platformCountErr = 0) (hplat : env.platformListErr = 0)
    (hdev : allDevices env ≠ []) :
    Event.createContext ∈ (main lib env [prog, "--size", value]).trace ∧
    (∀ text, Event.err text ∉ (main lib env [prog, "--size", value]).trace) ∧
    (env.contextErr = 0 →
      Event.createCommandQueue ∈ (main lib env [prog, "--size", value]).trace) ∧
    (env.contextErr = 0 → env.queueErr = 0 →
      Event.createBuffer n ∈ (main lib env [prog, "--size", value]).trace) := by
  obtain ⟨d, hd⟩ := runConfig_first_device env { defaultConfig with size := n } hcount hplat
    rfl rfl hdev
  rw [main_size_only lib env prog value n hparse, hd]
  have hno := runPasses_no_err env { defaultConfig with size := n }
  refine ⟨?_, ?_, ?_, ?_⟩
  · unfold benchmark; split_ifs <;> simp
  · intro text
    have := hno text
    unfold benchmark; split_ifs <;> simp [this]
  · intro hc
    unfold benchmark
    rw [if_neg (by simp [hc])]
    split_ifs <;> simp
  · intro hc hq
    unfold benchmark
    rw [if_neg (by simp [hc]), if_neg (by simp [hq])]
    split_ifs <;> simp

/-- C9, the amended statement for `--size 0`. -/
theorem size_is_not_validated_witness :
    Event.createContext ∈ (main stdlib zeroSizeEnv ["prog", "--size", "0"]).trace ∧
    (∀ text, Event.err text ∉ (main stdlib zeroSizeEnv ["prog", "--size", "0"]).trace) ∧
    (zeroSizeEnv.contextErr = 0 →
      Event.createCommandQueue ∈ (main stdlib zeroSizeEnv ["prog", "--size", "0"]).trace) ∧
    (zeroSizeEnv.contextErr = 0 → zeroSizeEnv.queueErr = 0 →
      Event.createBuffer 0 ∈ (main stdlib zeroSizeEnv ["prog", "--size", "0"]).trace) :=
  size_is_not_validated stdlib zeroSizeEnv "prog" "0" 0 (by decide) (by decide) (by decide)
    (by decide)

/-- C10, counterexample: `--help --bogus` prints the usage text and exits with status
0; `--iter abc --bogus` and `--size 5X` end in `std::terminate`, on the exception that
nobody catches, and not in an exit with status 1. -/
theorem bad_argument_after_help_exits_zero :
    main stdlib steadyEnv ["prog", "--help", "--bogus"]
      = ⟨[Event.usage "prog"], Status.exit 0⟩ ∧
    main stdlib steadyEnv ["prog", "--iter", "abc", "--bogus"]
      = ⟨[], Status.terminate (Exn.invalid_argument "stoi")⟩ ∧
    main stdlib steadyEnv ["prog", "--size", "5X"]
      = ⟨[], Status.terminate (Exn.runtime_error "Invalid size suffix (K/M/G/T)")⟩ := by
  decide

/-- C10, amended: when the arguments before it are accepted (no `--help` among them),
an argument that is no known flag, or a `--device`, `--size` or `--iter` in last position,
makes `main` write "Unknown or malformed option", print the usage text and exit with status
1, whatever follows it, and nothing else happens: no device resource is created. -/
theorem bad_argument_rejected (lib : StdLib) (env : Env) (prog bad : String)
    (pre rest : List String) (cfg : Config)
    (hpre : parseArgs lib prog pre defaultConfig = Parsed.run cfg)
    (hhelp : bad ≠ "--help") (hlist : bad ≠ "--list-devices")
    (hval : bad = "--device" ∨ bad = "--size" ∨ bad = "--iter" → rest = []) :
    main lib env (prog :: (pre ++ bad :: rest))
      = ⟨[Event.err ("Unknown or malformed option: " ++ bad ++ "\n"), Event.usage prog],
          Status.exit 1⟩ := by
  unfold main
  simp only [List.headD_cons, List.drop_succ_cons, List.drop_zero]
  rw [parseArgs_append lib prog (bad :: rest) pre.length pre _ _ (le_refl _) hpre,
    parseArgs_bad lib prog bad rest cfg hhelp hlist hval]
  rfl

/-- C10, the amended statement for `--iter 3 --list-devices --bogus --help`. -/
theorem bad_argument_rejected_witness :
    main stdlib steadyEnv ["prog", "--iter", "3", "--list-devices", "--bogus", "--help"]
      = ⟨[Event.err "Unknown or malformed option: --bogus\n", Event.usage "prog"],
          Status.exit 1⟩ :=
  bad_argument_rejected stdlib steadyEnv "prog" "--bogus" ["--iter", "3", "--list-devices"]
    ["--help"] ⟨1024 * 1024 * 1024, 3, 0, true⟩ (by decide) (by decide) (by decide) (by decide)

end GPUMemBench
